import Mathlib

/-! gcsfuse read manager (`internal/gcsx/read_manager.go`, `internal/gcsx/reader.go`)

Shallow embedding of the read manager and of the `Reader` interface it drives.

* A Go `error` is a `GoError`; the nil error is `Option.none`.
* A nilable Go value (pointer, interface, func) is an `Option`.
* Everything a reader strategy can touch (its own fields, the network, the
  file cache, the context) is one world `W`; a method of a strategy is a
  function that takes the world and gives back the world it leaves.
* A method of the read manager returns an `Eff`: the Go results, the manager
  and the world after the call, and the list of strategy methods it invoked,
  in order.
* A Go panic is `Except.error` with the panic message.
-/

namespace gcsx

/-- Go byte slice `[]byte`. -/
abbrev Bytes := List UInt8

/-- Go `error` value, identified by its message. -/
structure GoError where
  msg : String
deriving DecidableEq, Repr

/-- Package-level error `io.EOF` of the Go standard library. -/
def io.EOF : GoError := ⟨"EOF"⟩

/-- Go conversion `int64(x)` of a `uint64` value: the 64 bits read as two's complement. -/
def int64 (x : Nat) : Int :=
  if x % 2 ^ 64 < 2 ^ 63 then ((x % 2 ^ 64 : Nat) : Int) else ((x % 2 ^ 64 : Nat) : Int) - 2 ^ 64

/-- Record `storage.Object` of `google.golang.org/api/storage/v1`, with the
fields the read path looks at; `Size` is a `uint64`. -/
structure storage.Object where
  Name : String
  Size : Nat
  Generation : Int
deriving DecidableEq, Repr

/-- Go zero value of `storage.Object`. -/
def storage.Object.zero : storage.Object := ⟨"", 0, 0⟩

/-- Content-type marker of an object record. -/
inductive gcs.ObjectKind where
  | regular
  | directory
  | symlink
deriving DecidableEq, Repr

/-- Modelled from the spec: the record type `gcs.MinObject` (package
`internal/storage/gcs`, not in this source tree), after the spec's
ObjectRecord: name, generation, size, last-modified time and content-type
marker. -/
structure gcs.MinObject where
  Name : String
  Generation : Int
  Size : Nat
  Updated : Int
  Kind : gcs.ObjectKind
deriving DecidableEq, Repr

/-- Struct `ObjectData` of the readers package, with the three fields the
composite literal in `readManager.ReadAt` names. -/
structure ObjectData where
  DataBuf : Bytes
  CacheHit : Bool
  Size : Int
deriving DecidableEq, Repr

/-- Interface `Reader` of `reader.go`: `InvariantChecker`, `DataReader`,
`ObjectAccessor` and `Destroyer`, each method acting on the world `W`. -/
structure Reader (W : Type) where
  CheckInvariants : W → Except String W
  ReadAt : Bytes → Int → W → (ObjectData × Option GoError) × W
  Object : W → Option gcs.MinObject
  Destroy : W → W

/-- One invocation of a method of the strategy at position `i` of `readers`. -/
inductive Call where
  | CheckInvariants (i : Nat)
  | ReadAt (i : Nat) (p : Bytes) (offset : Int)
  | Object (i : Nat)
  | Destroy (i : Nat)
deriving DecidableEq, Repr

/-- Position in `readers` of the strategy a call goes to. -/
def Call.position : Call → Nat
  | Call.CheckInvariants i => i
  | Call.ReadAt i _ _ => i
  | Call.Object i => i
  | Call.Destroy i => i

/-- Struct `readManager`. `SR` is the type behind the interface
`gcs.StorageReader`; `cancel` is a `func()`. -/
structure readManager (W SR : Type) where
  object : storage.Object
  reader : Option SR
  cancel : Option (W → W)
  readers : List (Reader W)

/-- What a method of the read manager leaves behind. -/
structure Eff (W SR α : Type) where
  ret : α
  rr : readManager W SR
  world : W
  calls : List Call

/-- Struct `gcs_readers.RangeReader`, with the fields `NewReadManager` sets. -/
structure RangeReader (B MH : Type) where
  Obj : Option gcs.MinObject
  Bucket : B
  Start : Int
  Limit : Int
  Seeks : Nat
  MetricHandle : MH
  TotalReadBytes : Nat

/-- Struct `gcs_readers.MultiRangeReader`, with the fields `NewReadManager` sets. -/
structure MultiRangeReader (MH MRD : Type) where
  MrdWrapper : Option MRD
  MetricHandle : MH

/-- Struct `readers.GCSReader`, with the fields `NewReadManager` sets. -/
structure GCSReader (B MH MRD : Type) where
  Obj : Option gcs.MinObject
  Bucket : B
  Start : Int
  Limit : Int
  Seeks : Nat
  TotalReadBytes : Nat
  RangeReader : RangeReader B MH
  Mrr : MultiRangeReader MH MRD
  SequentialReadSizeMb : Int

/-- Struct `readers.FileCacheReader`, with the fields `NewReadManager` sets. -/
structure FileCacheReader (B CH MH : Type) where
  Obj : Option gcs.MinObject
  Bucket : B
  FileCacheHandler : Option CH
  CacheFileForRangeRead : Bool
  MetricHandle : MH

section

variable {W SR B CH MH MRD : Type}

/-- `NewReadManager`. The method sets of `*readers.GCSReader` and
`*readers.FileCacheReader` are not in this source tree: `gcsMethods` and
`fileCacheMethods` stand for them. The fields `object`, `reader` and `cancel`
are not named by the composite literal and keep their zero values. -/
def NewReadManager (gcsMethods : GCSReader B MH MRD → Reader W)
    (fileCacheMethods : FileCacheReader B CH MH → Reader W)
    (o : Option gcs.MinObject) (bucket : B) (sequentialReadSizeMb : Int)
    (fileCacheHandler : Option CH) (cacheFileForRangeRead : Bool) (metricHandle : MH)
    (mrdWrapper : Option MRD) : readManager W SR :=
  let gcsReader : GCSReader B MH MRD :=
    { Obj := o
      Bucket := bucket
      Start := -1
      Limit := -1
      Seeks := 0
      TotalReadBytes := 0
      RangeReader :=
        { Obj := o
          Bucket := bucket
          Start := -1
          Limit := -1
          Seeks := 0
          MetricHandle := metricHandle
          TotalReadBytes := 0 }
      Mrr :=
        { MrdWrapper := mrdWrapper
          MetricHandle := metricHandle }
      SequentialReadSizeMb := sequentialReadSizeMb }
  let fileCacheReader : FileCacheReader B CH MH :=
    { Obj := o
      Bucket := bucket
      FileCacheHandler := fileCacheHandler
      CacheFileForRangeRead := cacheFileForRangeRead
      MetricHandle := metricHandle }
  { object := storage.Object.zero
    reader := none
    cancel := none
    readers := [gcsMethods gcsReader, fileCacheMethods fileCacheReader] }

/-- `readManager.Object`: returns nil. -/
def readManager.Object (rr : readManager W SR) (w : W) : Eff W SR (Option gcs.MinObject) :=
  ⟨none, rr, w, []⟩

/-- `readManager.CheckInvariants`: panics when `(reader == nil) != (cancel == nil)`. -/
def readManager.CheckInvariants (rr : readManager W SR) (w : W) : Except String (Eff W SR Unit) :=
  if rr.reader.isNone != rr.cancel.isNone then
    Except.error
      ("Mismatch: " ++ toString rr.reader.isNone ++ " vs. " ++ toString rr.cancel.isNone)
  else
    Except.ok ⟨(), rr, w, []⟩

/-- The `for _, r := range rr.readers` loop of `readManager.ReadAt`, entered
with the strategies still to visit, the position `i` of the first of them,
the current values of `objectData` and `err`, the world and the calls so far. -/
def readManager.ReadAt.loop (p : Bytes) (offset : Int) :
    List (Reader W) → Nat → ObjectData → Option GoError → W → List Call →
      (ObjectData × Option GoError) × W × List Call
  | [], _, objectData, err, w, calls => ((objectData, err), w, calls)
  | r :: rest, i, _, _, w, calls =>
    match r.ReadAt p offset w with
    | ((objectData, none), w1) => ((objectData, none), w1, calls ++ [Call.ReadAt i p offset])
    | ((objectData, some e), w1) =>
      readManager.ReadAt.loop p offset rest (i + 1) objectData (some e) w1
        (calls ++ [Call.ReadAt i p offset])

/-- `readManager.ReadAt`. -/
def readManager.ReadAt (rr : readManager W SR) (p : Bytes) (offset : Int) (w : W) :
    Eff W SR (ObjectData × Option GoError) :=
  let objectData : ObjectData := { DataBuf := p, CacheHit := false, Size := 0 }
  if offset ≥ int64 rr.object.Size then
    ⟨(objectData, some io.EOF), rr, w, []⟩
  else
    let out := readManager.ReadAt.loop p offset rr.readers 0 objectData none w []
    ⟨out.1, rr, out.2.1, out.2.2⟩

/-- `readManager.Destroy`: the body is empty. -/
def readManager.Destroy (rr : readManager W SR) (w : W) : Eff W SR Unit :=
  ⟨(), rr, w, []⟩

/-! ## Vocabulary for the strategy chain -/

/-- World in which the strategy at position `n` of `rs` is entered when the
strategies are called in list order from the world `w`, each with `p` and
`offset`: the world the `n` strategies before it leave behind. -/
def worldAt (p : Bytes) (offset : Int) : List (Reader W) → W → Nat → W
  | _, w, 0 => w
  | [], w, _ + 1 => w
  | r :: rest, w, n + 1 => worldAt p offset rest (r.ReadAt p offset w).2 n

/-- What `ReadAt(ctx, p, offset)` of the strategy at position `n` of `rs`
returns when the strategies are called in list order from the world `w`;
`none` when `rs` has no position `n`. -/
def answerAt (p : Bytes) (offset : Int) (rs : List (Reader W)) (w : W) (n : Nat) :
    Option (ObjectData × Option GoError) :=
  rs[n]?.map fun r => (r.ReadAt p offset (worldAt p offset rs w n)).1

/-- The calls `ReadAt(ctx, p, offset)` on the strategies at positions `0 .. n-1`, in that order. -/
def readCalls (p : Bytes) (offset : Int) (n : Nat) : List Call :=
  (List.range n).map fun i => Call.ReadAt i p offset

/-! ## A chain of two recording strategies -/

/-- A strategy that writes each of its invocations into the world and whose
`ReadAt` returns `ans`. -/
def Demo.strategy (id : Nat) (ans : ObjectData × Option GoError) : Reader (List Call) where
  CheckInvariants := fun w => Except.ok (w ++ [Call.CheckInvariants id])
  ReadAt := fun p offset w => (ans, w ++ [Call.ReadAt id p offset])
  Object := fun _ => none
  Destroy := fun w => w ++ [Call.Destroy id]

/-- Error `context.Canceled` of the Go standard library. -/
def context.Canceled : GoError := ⟨"context canceled"⟩

/-- A manager for a 10-byte object whose first strategy fails with
`context.Canceled` and whose second strategy delivers three bytes. -/
def Demo.rr : readManager (List Call) Unit where
  object := ⟨"foo", 10, 1⟩
  reader := none
  cancel := none
  readers :=
    [Demo.strategy 0 (⟨[], false, 0⟩, some context.Canceled),
     Demo.strategy 1 (⟨[7, 8, 9], true, 3⟩, none)]

/-- A manager for a 10-byte object whose two strategies both fail. -/
def Demo.failing : readManager (List Call) Unit where
  object := ⟨"foo", 10, 1⟩
  reader := none
  cancel := none
  readers :=
    [Demo.strategy 0 (⟨[], false, 0⟩, some context.Canceled),
     Demo.strategy 1 (⟨[], false, 0⟩, some ⟨"cache miss"⟩)]

/-- A manager for a 10-byte object with no strategy at all. -/
def Demo.bare : readManager (List Call) Unit where
  object := ⟨"foo", 10, 1⟩
  reader := none
  cancel := none
  readers := []

/-- A manager for a 10-byte object whose only strategy succeeds with zero bytes. -/
def Demo.quiet : readManager (List Call) Unit where
  object := ⟨"foo", 10, 1⟩
  reader := none
  cancel := none
  readers := [Demo.strategy 0 (⟨[], false, 0⟩, none)]

/-- Stand-in for the method set of `*readers.GCSReader`: a recording strategy
at position 0 that delivers three bytes and reports the record it was built for. -/
def Demo.gcsMethods (g : GCSReader Unit Unit Unit) : Reader (List Call) :=
  { Demo.strategy 0 (⟨[7, 8, 9], false, 3⟩, none) with Object := fun _ => g.Obj }

/-- Stand-in for the method set of `*readers.FileCacheReader`: a recording
strategy at position 1 that delivers three bytes from the cache. -/
def Demo.fileCacheMethods (f : FileCacheReader Unit Unit Unit) : Reader (List Call) :=
  { Demo.strategy 1 (⟨[7, 8, 9], true, 3⟩, none) with Object := fun _ => f.Obj }

/-- A 10-byte object record. -/
def Demo.object : gcs.MinObject := ⟨"foo", 1, 10, 0, gcs.ObjectKind.regular⟩

/-- The manager `NewReadManager` builds for `Demo.object`. -/
def Demo.built : readManager (List Call) Unit :=
  NewReadManager Demo.gcsMethods Demo.fileCacheMethods (some Demo.object) () 200 none false () none

/-! ## Sequences of operations on a manager -/

/-- One call of a method of the read manager. -/
inductive Op where
  | ReadAt (p : Bytes) (offset : Int)
  | Object
  | CheckInvariants
  | Destroy
deriving DecidableEq, Repr

/-- The manager and the world after one operation; a panic ends the run. -/
def Op.step (op : Op) (rr : readManager W SR) (w : W) : Except String (readManager W SR × W) :=
  match op with
  | Op.ReadAt p offset => Except.ok ((rr.ReadAt p offset w).rr, (rr.ReadAt p offset w).world)
  | Op.Object => Except.ok ((rr.Object w).rr, (rr.Object w).world)
  | Op.CheckInvariants =>
    match rr.CheckInvariants w with
    | Except.ok out => Except.ok (out.rr, out.world)
    | Except.error msg => Except.error msg
  | Op.Destroy => Except.ok ((rr.Destroy w).rr, (rr.Destroy w).world)

/-- The manager and the world after a sequence of operations, first to last. -/
def run : List Op → readManager W SR → W → Except String (readManager W SR × W)
  | [], rr, w => Except.ok (rr, w)
  | op :: rest, rr, w =>
    match op.step rr w with
    | Except.ok (rr1, w1) => run rest rr1 w1
    | Except.error msg => Except.error msg

/-- The invariant stated in `readManager.CheckInvariants`: `(reader == nil) == (cancel == nil)`. -/
def readManager.Paired (rr : readManager W SR) : Prop :=
  rr.reader.isNone = rr.cancel.isNone

end

end gcsx

/-! Metadata cache layer, folder rename and stale-handle detector

The file system (`internal/fs`), the stat cache (`internal/cache/metadata`,
`internal/cache/lru`), the caching bucket (`internal/storage/caching`) and
the file handles are not in this source tree: only their tests are. They are
modelled here from the spec (§3, §4.1, §4.4, §4.5, §7), over one bucket.

* An object name is its path components and whether it ends in `/`:
  `foo/` is `⟨["foo"], true⟩`, `foo/file1.txt` is `⟨["foo", "file1.txt"], false⟩`.
* Times and durations are milliseconds on the cache clock.
* An operation returns its result and the state it leaves.
-/

namespace fs

open gcsx

/-- Modelled from the spec: the error taxonomy of §7. -/
inductive FsError where
  | NotFound
  | Stale
  | PreconditionFailed
  | Cancelled
  | PartialFailure
  | InvariantViolation
deriving DecidableEq, Repr

/-- Modelled from the spec: an object name (full path key), as path
components and a trailing-slash flag. -/
structure Name where
  path : List String
  dir : Bool
deriving DecidableEq, Repr

/-- Modelled from the spec: the full path key of a name, as a string. -/
def Name.key (n : Name) : String :=
  "/".intercalate n.path ++ (if n.dir then "/" else "")

/-- Modelled from the spec: what the remote store holds under one name. -/
structure Object where
  generation : Int
  contents : Bytes
  kind : gcs.ObjectKind
  updated : Int
deriving DecidableEq, Repr

/-- Modelled from the spec: the remote bucket (the bucket capability of §6):
its objects, the next generation it will assign, and whether it declares a
hierarchical namespace. -/
structure Bucket where
  objects : List (Name × Object)
  nextGeneration : Int
  hierarchical : Bool
deriving DecidableEq, Repr

/-- Modelled from the spec: the object stored under a name, if any. -/
def Bucket.get (b : Bucket) (n : Name) : Option Object :=
  (b.objects.find? fun e => e.1 == n).map fun e => e.2

/-- Modelled from the spec: the ObjectRecord of an object stored under a name. -/
def Bucket.record (n : Name) (o : Object) : gcs.MinObject :=
  ⟨n.key, o.generation, o.contents.length, o.updated, o.kind⟩

/-- Modelled from the spec: `StatObject` of the bucket capability, uncached. -/
def Bucket.StatObject (b : Bucket) (n : Name) : Option gcs.MinObject :=
  (b.get n).map (Bucket.record n)

/-- Modelled from the spec: the content-type marker a new object gets. -/
def kindOf (n : Name) (symlink : Bool) : gcs.ObjectKind :=
  if n.dir then gcs.ObjectKind.directory
  else if symlink then gcs.ObjectKind.symlink
  else gcs.ObjectKind.regular

/-- Modelled from the spec: `CreateObject` of the bucket capability. The object
replaces any object of that name and gets a new generation. -/
def Bucket.CreateObject (b : Bucket) (n : Name) (contents : Bytes) (symlink : Bool)
    (mtime : Int) : Bucket :=
  { b with
    objects :=
      (n, ⟨b.nextGeneration, contents, kindOf n symlink, mtime⟩) ::
        b.objects.filter fun e => !(e.1 == n)
    nextGeneration := b.nextGeneration + 1 }

/-- Modelled from the spec: `DeleteObject` of the bucket capability. -/
def Bucket.DeleteObject (b : Bucket) (n : Name) : Bucket :=
  { b with objects := b.objects.filter fun e => !(e.1 == n) }

/-- Modelled from the spec: StatCacheEntry (§3): an ObjectRecord or the
explicit-negative marker (`none`), the insertion timestamp and the owning
bucket scope. -/
structure StatCacheEntry where
  scope : String
  name : Name
  record : Option gcs.MinObject
  inserted : Nat
deriving DecidableEq, Repr

/-- Modelled from the spec: the bounded LRU of stat-cache entries, keyed by
(bucket scope, name), most recently used first, with its entry budget. -/
structure StatCache where
  capacity : Nat
  entries : List StatCacheEntry
deriving DecidableEq, Repr

/-- Modelled from the spec: whether an entry is the one of a key. -/
def StatCacheEntry.keyed (scope : String) (n : Name) (e : StatCacheEntry) : Bool :=
  e.scope == scope && e.name == n

/-- Modelled from the spec: the LRU entry of a key, if any. -/
def StatCache.find (c : StatCache) (scope : String) (n : Name) : Option StatCacheEntry :=
  c.entries.find? (StatCacheEntry.keyed scope n)

/-- Modelled from the spec: explicit invalidation of a key. -/
def StatCache.Invalidate (c : StatCache) (scope : String) (n : Name) : StatCache :=
  { c with entries := c.entries.filter fun e => !(StatCacheEntry.keyed scope n e) }

/-- Modelled from the spec: insertion of an entry as the most recently used;
what exceeds the entry budget is evicted, least recently used first. -/
def StatCache.Insert (c : StatCache) (e : StatCacheEntry) : StatCache :=
  { c with entries := (e :: (c.Invalidate e.scope e.name).entries).take c.capacity }

/-- Modelled from the spec: a use of an entry makes it the most recently used. -/
def StatCache.touch (c : StatCache) (e : StatCacheEntry) : StatCache :=
  { c with entries := e :: (c.Invalidate e.scope e.name).entries }

/-- Modelled from the spec: the types the directory type cache maps a child
name to (§3). -/
inductive ChildType where
  | file
  | directory
  | symlink
  | conflict
deriving DecidableEq, Repr

/-- Modelled from the spec: one mapping of the directory type cache, with its
insertion timestamp. -/
structure TypeCacheEntry where
  path : List String
  type : ChildType
  inserted : Nat
deriving DecidableEq, Repr

/-- Modelled from the spec: ReadHandleState and LocalWriteBuffer as far as the
stale-handle detector looks at them (§3, §4.5): the backing object, the
captured generation token, the not-yet-flushed contents, and whether the
local name was unlinked. -/
structure Handle where
  name : Name
  generation : Int
  buffer : Option Bytes
  unlinked : Bool
deriving DecidableEq, Repr

/-- Modelled from the spec: the consistency core over one bucket: the remote
bucket, the stat cache and the directory type cache with their TTLs, the
cache clock, the open handles, and whether writes are streamed. -/
structure FS where
  scope : String
  bucket : Bucket
  statCache : StatCache
  statTTL : Nat
  typeCache : List TypeCacheEntry
  typeTTL : Nat
  now : Nat
  handles : List (Nat × Handle)
  nextHandle : Nat
  streamingWrites : Bool
deriving DecidableEq, Repr

/-! ## Metadata cache layer (§4.1) -/

/-- Modelled from the spec: the remote stat of a lookup that finds no usable
entry; the result, also "not found", is cached with a fresh timestamp. -/
def FS.refresh (s : FS) (n : Name) : Option gcs.MinObject × FS :=
  (s.bucket.StatObject n,
    { s with statCache := s.statCache.Insert ⟨s.scope, n, s.bucket.StatObject n, s.now⟩ })

/-- Modelled from the spec: `Stat(scope, name)`. A present entry that has not
expired (`now - insertion_timestamp > TTL` is false) is returned without a
remote call; an absent or expired entry triggers a remote stat. -/
def FS.Stat (s : FS) (n : Name) : Option gcs.MinObject × FS :=
  match s.statCache.find s.scope n with
  | some e =>
    if s.now - e.inserted > s.statTTL then s.refresh n
    else (e.record, { s with statCache := s.statCache.touch e })
  | none => s.refresh n

/-- Modelled from the spec: `Insert(scope, record)`. -/
def FS.Insert (s : FS) (n : Name) (r : gcs.MinObject) : FS :=
  { s with statCache := s.statCache.Insert ⟨s.scope, n, some r, s.now⟩ }

/-- Modelled from the spec: `Invalidate(scope, name)`. -/
def FS.Invalidate (s : FS) (n : Name) : FS :=
  { s with statCache := s.statCache.Invalidate s.scope n }

/-- Modelled from the spec: the passing of `d` milliseconds on the cache clock. -/
def FS.advance (s : FS) (d : Nat) : FS :=
  { s with now := s.now + d }

/-- Modelled from the spec: another actor creates or overwrites an object
directly on the remote side; no cache is told. -/
def FS.remoteCreate (s : FS) (n : Name) (contents : Bytes) (symlink : Bool) (mtime : Int) : FS :=
  { s with bucket := s.bucket.CreateObject n contents symlink mtime }

/-- Modelled from the spec: another actor deletes an object directly on the
remote side; no cache is told. -/
def FS.remoteDelete (s : FS) (n : Name) : FS :=
  { s with bucket := s.bucket.DeleteObject n }

/-- Modelled from the spec: stats of one name made one after another, the
cache clock advancing by the given amount before each; the list pairs the
time of each stat with what it reported. -/
def FS.statsAfter (s : FS) (n : Name) : List Nat → List (Nat × Option gcs.MinObject) × FS
  | [] => ([], s)
  | d :: ds =>
    (((s.advance d).now, ((s.advance d).Stat n).1) ::
        (FS.statsAfter ((s.advance d).Stat n).2 n ds).1,
      (FS.statsAfter ((s.advance d).Stat n).2 n ds).2)

/-! ## Directory type cache and name resolution (§3, §4.1) -/

/-- Modelled from the spec: the type the directory type cache holds for a
child name, unless the mapping is absent or has outlived the type-cache TTL. -/
def FS.liveType (s : FS) (p : List String) : Option ChildType :=
  match s.typeCache.find? fun e => e.path == p with
  | some e => if s.now - e.inserted > s.typeTTL then none else some e.type
  | none => none

/-- Modelled from the spec: the type cache records a type for a child name,
with a fresh timestamp. -/
def FS.setType (s : FS) (p : List String) (t : ChildType) : FS :=
  { s with typeCache := ⟨p, t, s.now⟩ :: s.typeCache.filter fun e => !(e.path == p) }

/-- Modelled from the spec: the type cache forgets a child name. -/
def FS.eraseType (s : FS) (p : List String) : FS :=
  { s with typeCache := s.typeCache.filter fun e => !(e.path == p) }

/-- Modelled from the spec: the type-cache value for an object record. -/
def typeOf (r : gcs.MinObject) : ChildType :=
  match r.Kind with
  | gcs.ObjectKind.directory => ChildType.directory
  | gcs.ObjectKind.symlink => ChildType.symlink
  | gcs.ObjectKind.regular => ChildType.file

/-- Modelled from the spec: the stat of a path through the file system, under
its plain name (`alt = false`) or under the name with the conflicting-file-name
suffix, `inode.ConflictingFileNameSuffix` in the tests (`alt = true`). The type cache is consulted before the content-level
stat: a live mapping decides which object is looked at, and only a conflict
mapping exposes the file under the suffixed name. Without a live mapping both
the directory `p/` and the file `p` are resolved through the stat cache; when
both exist the directory gets the plain name and the file the suffixed one. -/
def FS.lookUp (s : FS) (p : List String) (alt : Bool) : Option gcs.MinObject × FS :=
  match s.liveType p with
  | some ChildType.directory => if alt then (none, s) else s.Stat ⟨p, true⟩
  | some ChildType.file => if alt then (none, s) else s.Stat ⟨p, false⟩
  | some ChildType.symlink => if alt then (none, s) else s.Stat ⟨p, false⟩
  | some ChildType.conflict => if alt then s.Stat ⟨p, false⟩ else s.Stat ⟨p, true⟩
  | none =>
    match (s.Stat ⟨p, true⟩).1, ((s.Stat ⟨p, true⟩).2.Stat ⟨p, false⟩).1 with
    | some dr, some fr =>
      (if alt then some fr else some dr,
        ((s.Stat ⟨p, true⟩).2.Stat ⟨p, false⟩).2.setType p ChildType.conflict)
    | some dr, none =>
      (if alt then none else some dr,
        ((s.Stat ⟨p, true⟩).2.Stat ⟨p, false⟩).2.setType p ChildType.directory)
    | none, some fr =>
      (if alt then none else some fr,
        ((s.Stat ⟨p, true⟩).2.Stat ⟨p, false⟩).2.setType p (typeOf fr))
    | none, none => (none, ((s.Stat ⟨p, true⟩).2.Stat ⟨p, false⟩).2)

/-! ## Local mutations (§4.1) -/

/-- Modelled from the spec: a create or overwrite through the file system. The
object is written to the bucket and, before control returns, inserted into the
stat cache and recorded in the type cache. -/
def FS.createLocal (s : FS) (n : Name) (contents : Bytes) (symlink : Bool) : FS :=
  (({ s with bucket := s.bucket.CreateObject n contents symlink s.now }).Insert n
      (Bucket.record n ⟨s.bucket.nextGeneration, contents, kindOf n symlink, s.now⟩)).setType
    n.path (typeOf (Bucket.record n ⟨s.bucket.nextGeneration, contents, kindOf n symlink, s.now⟩))

/-- Modelled from the spec: a directory is created through the file system. -/
def FS.mkdir (s : FS) (p : List String) : FS :=
  s.createLocal ⟨p, true⟩ [] false

/-- Modelled from the spec: a file is created or overwritten through the file system. -/
def FS.writeFile (s : FS) (p : List String) (contents : Bytes) : FS :=
  s.createLocal ⟨p, false⟩ contents false

/-- Modelled from the spec: a delete through the file system. The object is
deleted from the bucket and, before control returns, invalidated in the stat
cache and forgotten by the type cache; the handles open on it are marked as
unlinked. -/
def FS.deleteLocal (s : FS) (n : Name) : FS :=
  (({ s with
        bucket := s.bucket.DeleteObject n
        handles := s.handles.map fun (e : Nat × Handle) =>
          if e.2.name == n then (e.1, { e.2 with unlinked := true }) else e }).Invalidate
      n).eraseType n.path

/-- Modelled from the spec: a directory is removed through the file system. -/
def FS.rmdir (s : FS) (p : List String) : FS :=
  s.deleteLocal ⟨p, true⟩

/-- Modelled from the spec: a file is unlinked through the file system. -/
def FS.unlink (s : FS) (p : List String) : FS :=
  s.deleteLocal ⟨p, false⟩

/-! ## Folder rename (§4.4) -/

/-- Modelled from the spec: whether a name is in the subtree of the folder
`src`: the folder object itself or a name below it. -/
def underFolder (src : List String) (n : Name) : Bool :=
  decide (src <+: n.path) && (n.dir || !(n.path == src))

/-- Modelled from the spec: the destination key that corresponds to a name of
the source subtree. -/
def rekey (src dst : List String) (n : Name) : Name :=
  ⟨dst ++ n.path.drop src.length, n.dir⟩

/-- Modelled from the spec: `RenameHierarchical` of the bucket capability: one
atomic rename of the whole subtree, which replaces the destination folder
object. -/
def Bucket.RenameHierarchical (b : Bucket) (src dst : List String) : Bucket :=
  { b with
    objects :=
      (b.objects.filter fun e => !(underFolder src e.1) && !(e.1 == ⟨dst, true⟩)) ++
        (b.objects.filter fun e => underFolder src e.1).map fun e => (rekey src dst e.1, e.2) }

/-- Modelled from the spec: the flat-namespace rename: every object under the
source is copied to its destination key, then the source objects are deleted.
No failure partway is modelled. -/
def Bucket.renameByCopy (b : Bucket) (src dst : List String) : Bucket :=
  ((b.objects.filter fun e => underFolder src e.1).foldl
    (fun acc e => acc.DeleteObject e.1)
    ((b.objects.filter fun e => underFolder src e.1).foldl
      (fun acc e =>
        acc.CreateObject (rekey src dst e.1) e.2.contents (e.2.kind == gcs.ObjectKind.symlink)
          e.2.updated)
      b))

/-- Modelled from the spec: the destination does not exist, or it is an empty
directory: every object at or under `dst` is the folder object `dst/` itself. -/
def Bucket.destinationFree (b : Bucket) (dst : List String) : Bool :=
  (b.objects.filter fun e => decide (dst <+: e.1.path)).all fun e => e.1 == ⟨dst, true⟩

/-- Modelled from the spec: the rename of a folder. The preconditions are
checked in order and the first failure wins: the source must exist; the
destination must not exist or be an empty directory; source and destination
must not be the same path. Then the subtree is renamed in the bucket and the
metadata cache layer is invalidated for the old and the new subtree. -/
def FS.renameFolder (s : FS) (src dst : List String) : Option FsError × FS :=
  if s.bucket.get ⟨src, true⟩ = none then (some FsError.NotFound, s)
  else if !(s.bucket.destinationFree dst) then (some FsError.PreconditionFailed, s)
  else if src = dst then (some FsError.PreconditionFailed, s)
  else
    (none,
      { s with
        bucket :=
          if s.bucket.hierarchical then s.bucket.RenameHierarchical src dst
          else s.bucket.renameByCopy src dst
        statCache :=
          { s.statCache with
            entries := s.statCache.entries.filter fun e =>
              !(e.scope == s.scope &&
                (decide (src <+: e.name.path) || decide (dst <+: e.name.path))) }
        typeCache := s.typeCache.filter fun e =>
          !(decide (src <+: e.path) || decide (dst <+: e.path)) })

/-! ## Stale-handle detector (§4.5) -/

/-- Modelled from the spec: the open handle with a given number. -/
def FS.handle (s : FS) (id : Nat) : Option Handle :=
  (s.handles.find? fun e => e.1 == id).map fun e => e.2

/-- Modelled from the spec: the state of a handle is replaced. -/
def FS.setHandle (s : FS) (id : Nat) (h : Handle) : FS :=
  { s with handles := (id, h) :: s.handles.filter fun e => !(e.1 == id) }

/-- Modelled from the spec: a handle is released. -/
def FS.dropHandle (s : FS) (id : Nat) : FS :=
  { s with handles := s.handles.filter fun e => !(e.1 == id) }

/-- Modelled from the spec: a file is opened. The object is resolved through
the metadata cache layer and its generation is captured. -/
def FS.openFile (s : FS) (p : List String) : Except FsError Nat × FS :=
  match (s.Stat ⟨p, false⟩).1 with
  | some r =>
    (Except.ok (s.Stat ⟨p, false⟩).2.nextHandle,
      { ((s.Stat ⟨p, false⟩).2.setHandle (s.Stat ⟨p, false⟩).2.nextHandle
          ⟨⟨p, false⟩, r.Generation, none, false⟩) with
        nextHandle := (s.Stat ⟨p, false⟩).2.nextHandle + 1 })
  | none => (Except.error FsError.NotFound, (s.Stat ⟨p, false⟩).2)

/-- Modelled from the spec: `data` written over `base` at `offset`, the gap
after a shorter `base` filled with zero bytes. -/
def overlay (base : Bytes) (offset : Nat) (data : Bytes) : Bytes :=
  (base ++ List.replicate (offset - base.length) 0).take offset ++ data ++
    base.drop (offset + data.length)

/-- Modelled from the spec: a write through a handle goes to its local write
buffer, which starts from the contents of the backing object. -/
def FS.writeAt (s : FS) (id : Nat) (data : Bytes) (offset : Nat) : Option FsError × FS :=
  match s.handle id with
  | none => (some FsError.NotFound, s)
  | some h =>
    (none,
      s.setHandle id
        { h with
          buffer :=
            some (overlay
              (h.buffer.getD (((s.bucket.get h.name).map fun o => o.contents).getD []))
              offset data) })

/-- Modelled from the spec: the stale-handle detector and the upload behind
it. For an unlinked handle no staleness check applies and the operation
succeeds. Otherwise the captured generation is compared with the live remote
generation, obtained by an uncached stat; a mismatch, or a missing object,
yields the stale-handle error and nothing is uploaded; on a match the buffer
is uploaded and the handle captures the new generation. -/
def FS.flush (s : FS) (id : Nat) (h : Handle) : Option FsError × FS :=
  if h.unlinked then (none, s)
  else
    match s.bucket.StatObject h.name with
    | none => (some FsError.Stale, s)
    | some live =>
      if live.Generation = h.generation then
        match h.buffer with
        | none => (none, s)
        | some contents =>
          (none,
            (s.createLocal h.name contents false).setHandle id
              { h with generation := s.bucket.nextGeneration, buffer := none })
      else (some FsError.Stale, s)

/-- Modelled from the spec: sync (flush) through a handle. With streamed
writes the check is left to close, as the stale-handle test has it
(`validateStaleNFSFileHandleErrorIfStreamingWritesDisabled`). -/
def FS.sync (s : FS) (id : Nat) : Option FsError × FS :=
  match s.handle id with
  | none => (some FsError.NotFound, s)
  | some h => if s.streamingWrites then (none, s) else s.flush id h

/-- Modelled from the spec: close of a handle: the detector is applied and the
handle is released. -/
def FS.close (s : FS) (id : Nat) : Option FsError × FS :=
  match s.handle id with
  | none => (some FsError.NotFound, s)
  | some h => ((s.flush id h).1, (s.flush id h).2.dropHandle id)

/-! ## A mount for the examples -/

/-- Ten minutes, the TTL of the caching tests, in milliseconds. -/
def Demo.ttl : Nat := 600000

/-- An empty hierarchical bucket behind empty caches of 1000 entries, both
TTLs ten minutes. -/
def Demo.mount : FS where
  scope := ""
  bucket := ⟨[], 1, true⟩
  statCache := ⟨1000, []⟩
  statTTL := Demo.ttl
  typeCache := []
  typeTTL := Demo.ttl
  now := 0
  handles := []
  nextHandle := 0
  streamingWrites := false

/-- The bytes of `taco`. -/
def Demo.taco : Bytes := [116, 97, 99, 111]

/-- The bytes of `burrito`. -/
def Demo.burrito : Bytes := [98, 117, 114, 114, 105, 116, 111]

/-- The mount after `f` was written with `taco` and opened: handle 0. -/
def Demo.opened : FS :=
  ((Demo.mount.writeFile ["f"] Demo.taco).openFile ["f"]).2

/-- The handle 0 of `Demo.opened`. -/
def Demo.handle : Handle := ⟨⟨["f"], false⟩, 1, none, false⟩

/-- The tree of the folder-rename tests: folders `foo/`, `bar/`, `foo/test2/`
and the files `foo/file1.txt`, `foo/file2.txt`. -/
def Demo.tree : FS :=
  ((((Demo.mount.mkdir ["foo"]).mkdir ["bar"]).mkdir ["foo", "test2"]).writeFile
    ["foo", "file1.txt"] Demo.taco).writeFile ["foo", "file2.txt"] Demo.burrito

/-- The tree with the file `bar/file3.txt` in the destination folder. -/
def Demo.treeWithFullBar : FS :=
  Demo.tree.writeFile ["bar", "file3.txt"] Demo.taco

/-- The mount after the file `foo` was written with `taco`. -/
def Demo.cached : FS :=
  Demo.mount.writeFile ["foo"] Demo.taco

/-- The bucket after another actor has overwritten `foo` with `burrito`. -/
def Demo.overwritten : Bucket :=
  (Demo.cached.remoteCreate ⟨["foo"], false⟩ Demo.burrito false 0).bucket

end fs

/-! Config file parsing (`internal/config/yaml_parser.go`)

* `os.ReadFile`, the YAML decoder and `strings.ToUpper` are libraries: they are
  parameters of `ParseConfigFile`, as is the result of `NewMountConfig`, which
  is declared elsewhere in the package.
* `fmt.Errorf` gives the `GoError` with the formatted message.
* `ParseConfigFile` returns, with its two results, the calls it made, in order.
-/

namespace config

open gcsx

/-- Type `LogSeverity`: a string. -/
abbrev LogSeverity := String

/-- Constant `TRACE`. -/
def TRACE : LogSeverity := "TRACE"

/-- Constant `DEBUG`. -/
def DEBUG : LogSeverity := "DEBUG"

/-- Constant `INFO`. -/
def INFO : LogSeverity := "INFO"

/-- Constant `WARNING`. -/
def WARNING : LogSeverity := "WARNING"

/-- Constant `ERROR`. -/
def ERROR : LogSeverity := "ERROR"

/-- Constant `OFF`. -/
def OFF : LogSeverity := "OFF"

/-- Constant `parseConfigFileErrMsgFormat`, `"error parsing config file: %v"`,
applied to the text of its argument. -/
def parseConfigFileErrMsgFormat (v : String) : String :=
  "error parsing config file: " ++ v

/-- `IsValidLogSeverity`. -/
def IsValidLogSeverity (severity : LogSeverity) : Bool :=
  if severity = TRACE ∨ severity = DEBUG ∨ severity = INFO ∨ severity = WARNING ∨
      severity = ERROR ∨ severity = OFF then
    true
  else
    false

/-- Struct `LogRotateConfig`, declared elsewhere in the package, with the two
fields `IsValidLogRotateConfig` reads, both taken to be of type `int`. -/
structure LogRotateConfig where
  MaxFileSizeMB : Int
  FileCount : Int
deriving DecidableEq, Repr

/-- `IsValidLogRotateConfig`. -/
def IsValidLogRotateConfig (config : LogRotateConfig) : Option GoError :=
  if config.MaxFileSizeMB ≤ 0 then
    some ⟨"max-file-size-mb should be atleast 1"⟩
  else if config.FileCount ≤ 0 then
    some ⟨"file-count should be atleast 1"⟩
  else
    none

/-- Struct `LogConfig`, declared elsewhere in the package, with the two fields
`ParseConfigFile` looks at. -/
structure LogConfig where
  Severity : LogSeverity
  LogRotateConfig : LogRotateConfig
deriving DecidableEq, Repr

/-- Struct `MountConfig`, declared elsewhere in the package: its `LogConfig`,
and its other fields as one value of a type `ρ`. -/
structure MountConfig (ρ : Type) where
  LogConfig : LogConfig
  other : ρ
deriving DecidableEq, Repr

/-- One call `ParseConfigFile` makes. -/
inductive Call where
  | ReadFile (name : String)
  | Decode (buf : Bytes)
  | IsValidLogSeverity (severity : LogSeverity)
  | IsValidLogRotateConfig (config : LogRotateConfig)
deriving DecidableEq, Repr

/-- The results of `ParseConfigFile` and the calls it made. -/
structure Parsed (ρ : Type) where
  mountConfig : MountConfig ρ
  err : Option GoError
  calls : List Call
deriving DecidableEq, Repr

/-- `ParseConfigFile`. `NewMountConfig` is what `NewMountConfig()` returns,
`ReadFile` is `os.ReadFile`, `Decode buf c` is what the decoder with
`KnownFields(true)` over `buf` makes of the config `c` and the error it
returns, `ToUpper` is `strings.ToUpper`. -/
def ParseConfigFile {ρ : Type} (NewMountConfig : MountConfig ρ)
    (ReadFile : String → Except GoError Bytes)
    (Decode : Bytes → MountConfig ρ → MountConfig ρ × Option GoError)
    (ToUpper : String → String) (fileName : String) : Parsed ρ :=
  if fileName = "" then
    ⟨NewMountConfig, none, []⟩
  else
    match ReadFile fileName with
    | Except.error e =>
      ⟨NewMountConfig, some ⟨"error reading config file: " ++ e.msg⟩, [Call.ReadFile fileName]⟩
    | Except.ok buf =>
      match Decode buf NewMountConfig with
      | (decoded, some e) =>
        if e = io.EOF then
          ⟨decoded, none, [Call.ReadFile fileName, Call.Decode buf]⟩
        else
          ⟨decoded, some ⟨parseConfigFileErrMsgFormat e.msg⟩,
            [Call.ReadFile fileName, Call.Decode buf]⟩
      | (decoded, none) =>
        if !IsValidLogSeverity (ToUpper decoded.LogConfig.Severity) then
          ⟨{ decoded with
              LogConfig :=
                { decoded.LogConfig with Severity := ToUpper decoded.LogConfig.Severity } },
            some ⟨"error parsing config file: log severity should be one of [trace, debug, info, warning, error, off]"⟩,
            [Call.ReadFile fileName, Call.Decode buf,
              Call.IsValidLogSeverity (ToUpper decoded.LogConfig.Severity)]⟩
        else
          match IsValidLogRotateConfig decoded.LogConfig.LogRotateConfig with
          | some e =>
            ⟨{ decoded with
                LogConfig :=
                  { decoded.LogConfig with Severity := ToUpper decoded.LogConfig.Severity } },
              some ⟨parseConfigFileErrMsgFormat e.msg⟩,
              [Call.ReadFile fileName, Call.Decode buf,
                Call.IsValidLogSeverity (ToUpper decoded.LogConfig.Severity),
                Call.IsValidLogRotateConfig decoded.LogConfig.LogRotateConfig]⟩
          | none =>
            ⟨{ decoded with
                LogConfig :=
                  { decoded.LogConfig with Severity := ToUpper decoded.LogConfig.Severity } },
              none,
              [Call.ReadFile fileName, Call.Decode buf,
                Call.IsValidLogSeverity (ToUpper decoded.LogConfig.Severity),
                Call.IsValidLogRotateConfig decoded.LogConfig.LogRotateConfig]⟩

/-! ## A config file for the examples -/

/-- Stand-in for `strings.ToUpper` on ASCII text. -/
def Demo.ToUpper (s : String) : String :=
  String.mk (s.data.map Char.toUpper)

/-- A default config whose severity and log-rotate settings would not pass
the validation. -/
def Demo.NewMountConfig : MountConfig Unit :=
  ⟨⟨"info", ⟨0, 0⟩⟩, ()⟩

/-- A file system with the one file `config.yaml`, of three bytes. -/
def Demo.ReadFile (name : String) : Except GoError Bytes :=
  if name = "config.yaml" then Except.ok [1, 2, 3]
  else Except.error ⟨"open " ++ name ++ ": no such file or directory"⟩

/-- A decoder that reads severity `debug`, 512 MB and 10 files. -/
def Demo.Decode (_ : Bytes) (c : MountConfig Unit) : MountConfig Unit × Option GoError :=
  ({ c with LogConfig := ⟨"debug", ⟨512, 10⟩⟩ }, none)

/-- A decoder that reads severity `Warning`, 0 MB and 10 files. -/
def Demo.DecodeNoSize (_ : Bytes) (c : MountConfig Unit) : MountConfig Unit × Option GoError :=
  ({ c with LogConfig := ⟨"Warning", ⟨0, 10⟩⟩ }, none)

end config

namespace gcsx

/-! ## Lemmas on the loop -/

section

variable {W SR : Type}

theorem int64_of_lt (x : Nat) (h : x < 2 ^ 63) : int64 x = (x : Int) := by
  have h1 : x % 2 ^ 64 = x := Nat.mod_eq_of_lt (by omega)
  unfold int64
  rw [h1, if_pos h]

theorem worldAt_zero (p : Bytes) (offset : Int) (rs : List (Reader W)) (w : W) :
    worldAt p offset rs w 0 = w := by
  cases rs <;> rfl

theorem answerAt_nil (p : Bytes) (offset : Int) (w : W) (n : Nat) :
    answerAt p offset ([] : List (Reader W)) w n = none := by
  simp [answerAt]

theorem answerAt_cons_zero (p : Bytes) (offset : Int) (r : Reader W) (rest : List (Reader W))
    (w : W) : answerAt p offset (r :: rest) w 0 = some (r.ReadAt p offset w).1 := by
  simp [answerAt, worldAt]

theorem answerAt_cons_succ (p : Bytes) (offset : Int) (r : Reader W) (rest : List (Reader W))
    (w : W) (n : Nat) :
    answerAt p offset (r :: rest) w (n + 1) = answerAt p offset rest (r.ReadAt p offset w).2 n := by
  simp [answerAt, worldAt]

theorem answerAt_lt_length (p : Bytes) (offset : Int) (rs : List (Reader W)) (w : W) (n : Nat)
    (a : ObjectData × Option GoError) (h : answerAt p offset rs w n = some a) :
    n < rs.length := by
  by_contra hn
  have hnone : rs[n]? = none := List.getElem?_eq_none (by omega)
  simp [answerAt, hnone] at h

theorem loop_cons_none (p : Bytes) (offset : Int) (r : Reader W) (rest : List (Reader W))
    (i : Nat) (od0 : ObjectData) (err0 : Option GoError) (w w1 : W) (calls : List Call)
    (d : ObjectData) (h : r.ReadAt p offset w = ((d, none), w1)) :
    readManager.ReadAt.loop p offset (r :: rest) i od0 err0 w calls =
      ((d, none), w1, calls ++ [Call.ReadAt i p offset]) := by
  simp only [readManager.ReadAt.loop, h]

theorem loop_cons_some (p : Bytes) (offset : Int) (r : Reader W) (rest : List (Reader W))
    (i : Nat) (od0 : ObjectData) (err0 : Option GoError) (w w1 : W) (calls : List Call)
    (d : ObjectData) (e : GoError) (h : r.ReadAt p offset w = ((d, some e), w1)) :
    readManager.ReadAt.loop p offset (r :: rest) i od0 err0 w calls =
      readManager.ReadAt.loop p offset rest (i + 1) d (some e) w1
        (calls ++ [Call.ReadAt i p offset]) := by
  simp only [readManager.ReadAt.loop, h]

theorem range_shift (p : Bytes) (offset : Int) (i n : Nat) :
    Call.ReadAt i p offset :: (List.range n).map (fun j => Call.ReadAt (i + 1 + j) p offset) =
      (List.range (n + 1)).map (fun j => Call.ReadAt (i + j) p offset) := by
  rw [List.range_succ_eq_map]
  simp only [List.map_cons, List.map_map, Nat.add_zero]
  congr 1
  apply List.map_congr_left
  intro j _
  simp only [Function.comp, Nat.succ_eq_add_one]
  congr 1
  omega

/-- The loop of `readManager.ReadAt` calls the strategies at positions
`0 .. n-1` for some `n`, in that order and each once; all but the last of them
fail, the loop returns what the last of them returns, and it stops before the
end of the list only on a nil error. -/
theorem loop_spec (p : Bytes) (offset : Int) :
    ∀ (rs : List (Reader W)) (i : Nat) (od0 : ObjectData) (err0 : Option GoError) (w : W)
      (calls : List Call),
      ∃ n, n ≤ rs.length ∧
        (readManager.ReadAt.loop p offset rs i od0 err0 w calls).2.2 =
          calls ++ (List.range n).map (fun j => Call.ReadAt (i + j) p offset) ∧
        (readManager.ReadAt.loop p offset rs i od0 err0 w calls).2.1 = worldAt p offset rs w n ∧
        (∀ j, j + 1 < n → ∃ d e, answerAt p offset rs w j = some (d, some e)) ∧
        (n = 0 → rs = [] ∧ (readManager.ReadAt.loop p offset rs i od0 err0 w calls).1 = (od0, err0)) ∧
        (0 < n →
          answerAt p offset rs w (n - 1) =
            some (readManager.ReadAt.loop p offset rs i od0 err0 w calls).1) ∧
        ((readManager.ReadAt.loop p offset rs i od0 err0 w calls).1.2 = none ∨ n = rs.length) := by
  intro rs
  induction rs with
  | nil =>
    intro i od0 err0 w calls
    refine ⟨0, le_refl _, ?_, ?_, ?_, ?_, ?_, ?_⟩
    · simp [readManager.ReadAt.loop]
    · simp [readManager.ReadAt.loop, worldAt]
    · intro j hj
      omega
    · intro _
      exact ⟨rfl, rfl⟩
    · intro h
      omega
    · right
      rfl
  | cons r rest ih =>
    intro i od0 err0 w calls
    rcases h : r.ReadAt p offset w with ⟨⟨d, e⟩, w1⟩
    cases e with
    | none =>
      rw [loop_cons_none p offset r rest i od0 err0 w w1 calls d h]
      refine ⟨1, by simp, ?_, ?_, ?_, ?_, ?_, ?_⟩
      · simp [List.range_succ]
      · simp [worldAt, h]
      · intro j hj
        omega
      · intro h0
        omega
      · intro _
        simp [answerAt_cons_zero, h]
      · left
        rfl
    | some e =>
      rw [loop_cons_some p offset r rest i od0 err0 w w1 calls d e h]
      obtain ⟨n, hn, hc, hw, hf, h0, hpos, hlast⟩ :=
        ih (i + 1) d (some e) w1 (calls ++ [Call.ReadAt i p offset])
      refine ⟨n + 1, by simpa using hn, ?_, ?_, ?_, ?_, ?_, ?_⟩
      · rw [hc, ← range_shift p offset i n]
        simp
      · rw [hw]
        simp [worldAt, h]
      · intro j hj
        cases j with
        | zero => exact ⟨d, e, by simp [answerAt_cons_zero, h]⟩
        | succ j =>
          rw [answerAt_cons_succ, h]
          exact hf j (by omega)
      · intro h1
        omega
      · intro _
        cases n with
        | zero =>
          obtain ⟨_, hret⟩ := h0 rfl
          rw [hret]
          simp [answerAt_cons_zero, h]
        | succ m =>
          have := hpos (by omega)
          simp only [Nat.add_sub_cancel] at this ⊢
          rw [answerAt_cons_succ, h]
          exact this
      · rcases hlast with hl | hl
        · left
          exact hl
        · right
          simp [hl]

theorem ReadAt_eof (rr : readManager W SR) (p : Bytes) (offset : Int) (w : W)
    (h : int64 rr.object.Size ≤ offset) :
    rr.ReadAt p offset w = ⟨(⟨p, false, 0⟩, some io.EOF), rr, w, []⟩ := by
  unfold readManager.ReadAt
  simp only [ge_iff_le, h, if_true]

theorem ReadAt_loop (rr : readManager W SR) (p : Bytes) (offset : Int) (w : W)
    (h : offset < int64 rr.object.Size) :
    rr.ReadAt p offset w =
      ⟨(readManager.ReadAt.loop p offset rr.readers 0 ⟨p, false, 0⟩ none w []).1, rr,
        (readManager.ReadAt.loop p offset rr.readers 0 ⟨p, false, 0⟩ none w []).2.1,
        (readManager.ReadAt.loop p offset rr.readers 0 ⟨p, false, 0⟩ none w []).2.2⟩ := by
  unfold readManager.ReadAt
  simp only [ge_iff_le, not_le.mpr h, if_false]

/-- Below the object size `readManager.ReadAt` is its loop: see `loop_spec`. -/
theorem ReadAt_chain (rr : readManager W SR) (p : Bytes) (offset : Int) (w : W)
    (h : offset < int64 rr.object.Size) :
    ∃ n, n ≤ rr.readers.length ∧
      (rr.ReadAt p offset w).calls = readCalls p offset n ∧
      (rr.ReadAt p offset w).world = worldAt p offset rr.readers w n ∧
      (rr.ReadAt p offset w).rr = rr ∧
      (∀ j, j + 1 < n → ∃ d e, answerAt p offset rr.readers w j = some (d, some e)) ∧
      (n = 0 → rr.readers = [] ∧ (rr.ReadAt p offset w).ret = (⟨p, false, 0⟩, none)) ∧
      (0 < n → answerAt p offset rr.readers w (n - 1) = some (rr.ReadAt p offset w).ret) ∧
      ((rr.ReadAt p offset w).ret.2 = none ∨ n = rr.readers.length) := by
  obtain ⟨n, hn, hc, hw, hf, h0, hpos, hlast⟩ :=
    loop_spec p offset rr.readers 0 ⟨p, false, 0⟩ none w []
  rw [ReadAt_loop rr p offset w h]
  refine ⟨n, hn, ?_, hw, rfl, hf, h0, hpos, hlast⟩
  simp only [hc, List.nil_append, Nat.zero_add, readCalls]

theorem mem_readCalls (p : Bytes) (offset : Int) (n i : Nat) (h : i < n) :
    Call.ReadAt i p offset ∈ readCalls p offset n := by
  unfold readCalls
  exact List.mem_map.mpr ⟨i, List.mem_range.mpr h, rfl⟩

theorem readCalls_position_le_one (p : Bytes) (offset : Int) (n i : Nat) :
    ((readCalls p offset n).filter fun c => c.position == i).length ≤ 1 := by
  unfold readCalls
  rw [← List.countP_eq_length_filter, List.countP_map]
  have hcount : List.countP ((fun c => c.position == i) ∘ fun j => Call.ReadAt j p offset)
      (List.range n) = List.count i (List.range n) := by
    unfold List.count
    apply List.countP_congr
    intro j _
    simp [Call.position]
  rw [hcount]
  exact List.nodup_iff_count_le_one.mp (List.nodup_range n) i


/-- First success in the chain: shared by the claims on the fallback order. -/
theorem chain_first_success (rr : readManager W SR) (p : Bytes) (offset : Int) (w : W)
    (k : Nat) (od : ObjectData)
    (hsize : offset < int64 rr.object.Size)
    (hfail : ∀ i, i < k → ∃ d e, answerAt p offset rr.readers w i = some (d, some e))
    (hk : answerAt p offset rr.readers w k = some (od, none)) :
    (rr.ReadAt p offset w).ret = (od, none) ∧
      (rr.ReadAt p offset w).calls = readCalls p offset (k + 1) ∧
      (∀ i q o, k < i → Call.ReadAt i q o ∉ (rr.ReadAt p offset w).calls) := by
  obtain ⟨n, hn, hc, _, _, hf, h0, hpos, hlast⟩ := ReadAt_chain rr p offset w hsize
  have hklt : k < rr.readers.length := answerAt_lt_length p offset rr.readers w k _ hk
  have hn0 : 0 < n := by
    by_contra hcon
    have hnil := (h0 (by omega)).1
    rw [hnil] at hklt
    simp at hklt
  have hans := hpos hn0
  have hnk : n - 1 = k := by
    rcases Nat.lt_trichotomy (n - 1) k with hlt | heq | hgt
    · obtain ⟨d, e, hde⟩ := hfail (n - 1) hlt
      rw [hde] at hans
      have hr : (rr.ReadAt p offset w).ret = (d, some e) := (Option.some.inj hans).symm
      rcases hlast with hl | hl
      · rw [hr] at hl
        simp at hl
      · omega
    · exact heq
    · obtain ⟨d, e, hde⟩ := hf k (by omega)
      rw [hk] at hde
      simp at hde
  have hn1 : n = k + 1 := by omega
  rw [hnk, hk] at hans
  refine ⟨(Option.some.inj hans).symm, by rw [hc, hn1], ?_⟩
  intro i q o hi hmem
  rw [hc, hn1] at hmem
  unfold readCalls at hmem
  obtain ⟨j, hj, hje⟩ := List.mem_map.mp hmem
  have hjlt := List.mem_range.mp hj
  injection hje with h1
  omega

/-- The calls of one `ReadAt` are those of a prefix of the strategy list. -/
theorem calls_prefix (rr : readManager W SR) (p : Bytes) (offset : Int) (w : W) :
    ∃ n, n ≤ rr.readers.length ∧ (rr.ReadAt p offset w).calls = readCalls p offset n := by
  rcases le_or_lt (int64 rr.object.Size) offset with h | h
  · exact ⟨0, Nat.zero_le _, by rw [ReadAt_eof rr p offset w h]; rfl⟩
  · obtain ⟨n, hn, hc, _⟩ := ReadAt_chain rr p offset w h
    exact ⟨n, hn, hc⟩

theorem CheckInvariants_ok_of_Paired (rr : readManager W SR) (w : W) (h : rr.Paired) :
    ∃ out, rr.CheckInvariants w = Except.ok out := by
  unfold readManager.Paired at h
  unfold readManager.CheckInvariants
  simp [h]

theorem ReadAt_rr (rr : readManager W SR) (p : Bytes) (offset : Int) (w : W) :
    (rr.ReadAt p offset w).rr = rr := by
  unfold readManager.ReadAt
  split <;> rfl

theorem step_keeps_Paired (rr : readManager W SR) (op : Op) (w : W) (h : rr.Paired) :
    ∃ rr1 w1, op.step rr w = Except.ok (rr1, w1) ∧ rr1.Paired := by
  cases op with
  | ReadAt p offset =>
    refine ⟨_, _, rfl, ?_⟩
    rw [ReadAt_rr]
    exact h
  | Object => exact ⟨_, _, rfl, h⟩
  | CheckInvariants =>
    have h2 : ¬ ((rr.reader.isNone != rr.cancel.isNone) = true) := by
      unfold readManager.Paired at h
      simp [h]
    refine ⟨rr, w, ?_, h⟩
    simp only [Op.step, readManager.CheckInvariants, if_neg h2]
  | Destroy => exact ⟨_, _, rfl, h⟩

theorem run_keeps_Paired (ops : List Op) :
    ∀ (rr : readManager W SR) (w : W), rr.Paired →
      ∃ rr1 w1, run ops rr w = Except.ok (rr1, w1) ∧ rr1.Paired := by
  induction ops with
  | nil =>
    intro rr w h
    exact ⟨rr, w, rfl, h⟩
  | cons op rest ih =>
    intro rr w h
    obtain ⟨rr1, w1, hstep, hp⟩ := step_keeps_Paired rr op w h
    obtain ⟨rr2, w2, hrun, hp2⟩ := ih rr1 w1 hp
    refine ⟨rr2, w2, ?_, hp2⟩
    simp only [run, hstep]
    exact hrun

end

/-! ## The claims -/

section

variable {W SR : Type}

/-- C1. Below the object size (read as the code reads it, `int64(rr.object.Size)`,
which is the size itself for every size below 2^63): if the strategy at
position `k` is the first in list order whose `ReadAt(ctx, p, offset)` returns
a nil error, then `readManager.ReadAt(ctx, p, offset)` returns that strategy's
object data with a nil error, and the strategies it invoked are exactly those
at positions `0 .. k`, in order, each once and each with the same `p` and
`offset`; no strategy after `k` is invoked. -/
theorem ReadAt_returns_first_success (rr : readManager W SR) (p : Bytes) (offset : Int) (w : W)
    (k : Nat) (od : ObjectData)
    (hsize : offset < int64 rr.object.Size)
    (hfail : ∀ i, i < k → ∃ d e, answerAt p offset rr.readers w i = some (d, some e))
    (hk : answerAt p offset rr.readers w k = some (od, none)) :
    (rr.ReadAt p offset w).ret = (od, none) ∧
      (rr.ReadAt p offset w).calls = readCalls p offset (k + 1) ∧
      (∀ i q o, k < i → Call.ReadAt i q o ∉ (rr.ReadAt p offset w).calls) :=
  chain_first_success rr p offset w k od hsize hfail hk

/-- C1 at `Demo.rr`: the first strategy fails, the second is the first to succeed. -/
theorem ReadAt_returns_first_success_witness :
    (Demo.rr.ReadAt [0, 0, 0] 0 []).ret = (⟨[7, 8, 9], true, 3⟩, none) ∧
      (Demo.rr.ReadAt [0, 0, 0] 0 []).calls = readCalls [0, 0, 0] 0 (1 + 1) ∧
      (∀ i q o, 1 < i → Call.ReadAt i q o ∉ (Demo.rr.ReadAt [0, 0, 0] 0 []).calls) :=
  ReadAt_returns_first_success Demo.rr [0, 0, 0] 0 [] 1 ⟨[7, 8, 9], true, 3⟩ (by decide)
    (fun i hi => by
      have h0 : i = 0 := by omega
      subst h0
      exact ⟨⟨[], false, 0⟩, context.Canceled, rfl⟩)
    rfl

/-- C2. At an offset at or beyond the object size (`offset` being an `int64`,
hence below 2^63) `readManager.ReadAt` returns `io.EOF` with the initial
object data, invokes no strategy and leaves the manager and the world as
they were. -/
theorem ReadAt_at_or_beyond_size_is_EOF (rr : readManager W SR) (p : Bytes) (offset : Int) (w : W)
    (hoff : offset < 2 ^ 63) (h : (rr.object.Size : Int) ≤ offset) :
    rr.ReadAt p offset w = ⟨(⟨p, false, 0⟩, some io.EOF), rr, w, []⟩ := by
  have hs : rr.object.Size < 2 ^ 63 := by
    have : (rr.object.Size : Int) < 2 ^ 63 := lt_of_le_of_lt h hoff
    exact_mod_cast this
  apply ReadAt_eof
  rw [int64_of_lt _ hs]
  exact h

/-- C2 at `Demo.rr`, offset 10 on a 10-byte object. -/
theorem ReadAt_at_or_beyond_size_is_EOF_witness :
    Demo.rr.ReadAt [0, 0, 0] 10 [] = ⟨(⟨[0, 0, 0], false, 0⟩, some io.EOF), Demo.rr, [], []⟩ :=
  ReadAt_at_or_beyond_size_is_EOF Demo.rr [0, 0, 0] 10 [] (by decide) (by decide)

/-- C3. With a non-empty strategy list and an offset below the object size:
if every strategy's `ReadAt` returns an error, `readManager.ReadAt` returns
what the last strategy of the list returns, its object data and its error,
after invoking every strategy once in list order. -/
theorem ReadAt_all_fail_returns_last (rr : readManager W SR) (p : Bytes) (offset : Int) (w : W)
    (hne : rr.readers ≠ [])
    (hsize : offset < int64 rr.object.Size)
    (hall : ∀ i, i < rr.readers.length →
      ∃ d e, answerAt p offset rr.readers w i = some (d, some e)) :
    answerAt p offset rr.readers w (rr.readers.length - 1) = some (rr.ReadAt p offset w).ret ∧
      (rr.ReadAt p offset w).ret.2 ≠ none ∧
      (rr.ReadAt p offset w).calls = readCalls p offset rr.readers.length := by
  obtain ⟨n, hn, hc, _, _, _, h0, hpos, hlast⟩ := ReadAt_chain rr p offset w hsize
  have hlen : 0 < rr.readers.length := List.length_pos.mpr hne
  have hn0 : 0 < n := by
    by_contra hcon
    exact hne (h0 (by omega)).1
  have hans := hpos hn0
  obtain ⟨d, e, hde⟩ := hall (n - 1) (by omega)
  rw [hde] at hans
  have hr : (rr.ReadAt p offset w).ret = (d, some e) := (Option.some.inj hans).symm
  have hfull : n = rr.readers.length := by
    rcases hlast with hl | hl
    · rw [hr] at hl
      simp at hl
    · exact hl
  refine ⟨?_, ?_, ?_⟩
  · rw [← hfull, hde, hr]
  · rw [hr]
    simp
  · rw [hc, hfull]

/-- C3 at `Demo.failing`, whose two strategies both fail. -/
theorem ReadAt_all_fail_returns_last_witness :
    answerAt [0, 0, 0] 0 Demo.failing.readers [] (Demo.failing.readers.length - 1) =
        some (Demo.failing.ReadAt [0, 0, 0] 0 []).ret ∧
      (Demo.failing.ReadAt [0, 0, 0] 0 []).ret.2 ≠ none ∧
      (Demo.failing.ReadAt [0, 0, 0] 0 []).calls = readCalls [0, 0, 0] 0 Demo.failing.readers.length :=
  ReadAt_all_fail_returns_last Demo.failing [0, 0, 0] 0 [] (List.cons_ne_nil _ _) (by decide)
    (fun i hi => by
      have h2 : i < 2 := hi
      interval_cases i
      · exact ⟨⟨[], false, 0⟩, context.Canceled, rfl⟩
      · exact ⟨⟨[], false, 0⟩, ⟨"cache miss"⟩, rfl⟩)

/-- C4. `readManager.CheckInvariants` panics if and only if exactly one of
`reader` and `cancel` is nil; when both are nil or both are non-nil it
returns normally, invokes nothing and leaves the manager and the world as
they were. -/
theorem CheckInvariants_panics_iff (rr : readManager W SR) (w : W) :
    ((∃ msg, rr.CheckInvariants w = Except.error msg) ↔
        ((rr.reader = none ∧ rr.cancel ≠ none) ∨ (rr.reader ≠ none ∧ rr.cancel = none))) ∧
      (((rr.reader = none ∧ rr.cancel = none) ∨ (rr.reader ≠ none ∧ rr.cancel ≠ none)) →
        rr.CheckInvariants w = Except.ok ⟨(), rr, w, []⟩) := by
  unfold readManager.CheckInvariants
  cases hr : rr.reader <;> cases hc : rr.cancel <;> simp

/-- C5, as the code has it. `readManager.ReadAt` falls through on every non-nil
error, whatever its class: below the object size, if the strategies at
positions `0 .. i` all return an error and the list has a position `i + 1`,
then the strategy at `i + 1` is invoked and `ReadAt` returns what a strategy
after position `i` returns, so the error of strategy `i` reaches the caller
only when `i` is the last position. -/
theorem ReadAt_falls_through_on_every_error (rr : readManager W SR) (p : Bytes) (offset : Int)
    (w : W) (i : Nat)
    (hsize : offset < int64 rr.object.Size)
    (hfail : ∀ j, j ≤ i → ∃ d e, answerAt p offset rr.readers w j = some (d, some e))
    (hnext : i + 1 < rr.readers.length) :
    Call.ReadAt (i + 1) p offset ∈ (rr.ReadAt p offset w).calls ∧
      ∃ j, i < j ∧ answerAt p offset rr.readers w j = some (rr.ReadAt p offset w).ret := by
  obtain ⟨n, hn, hc, _, _, _, h0, hpos, hlast⟩ := ReadAt_chain rr p offset w hsize
  have hn0 : 0 < n := by
    by_contra hcon
    have hnil := (h0 (by omega)).1
    rw [hnil] at hnext
    simp at hnext
  have hans := hpos hn0
  have hbig : i + 2 ≤ n := by
    by_contra hcon
    obtain ⟨d, e, hde⟩ := hfail (n - 1) (by omega)
    rw [hde] at hans
    have hr : (rr.ReadAt p offset w).ret = (d, some e) := (Option.some.inj hans).symm
    rcases hlast with hl | hl
    · rw [hr] at hl
      simp at hl
    · omega
  refine ⟨?_, n - 1, by omega, hans⟩
  rw [hc]
  exact mem_readCalls p offset n (i + 1) (by omega)

/-- C5, as the code has it, at `Demo.rr` and position 0. -/
theorem ReadAt_falls_through_on_every_error_witness :
    Call.ReadAt (0 + 1) [0, 0, 0] 0 ∈ (Demo.rr.ReadAt [0, 0, 0] 0 []).calls ∧
      ∃ j, 0 < j ∧
        answerAt [0, 0, 0] 0 Demo.rr.readers [] j = some (Demo.rr.ReadAt [0, 0, 0] 0 []).ret :=
  ReadAt_falls_through_on_every_error Demo.rr [0, 0, 0] 0 [] 0 (by decide)
    (fun j hj => by
      have h0 : j = 0 := by omega
      subst h0
      exact ⟨⟨[], false, 0⟩, context.Canceled, rfl⟩)
    (by decide)

/-- C5 fails as stated: the first strategy of `Demo.rr` returns the
cancellation error `context.Canceled`, and `readManager.ReadAt` goes on to
the second strategy and returns its data with a nil error. -/
theorem ReadAt_replaces_a_cancellation_error :
    answerAt [0, 0, 0] 0 Demo.rr.readers [] 0 = some (⟨[], false, 0⟩, some context.Canceled) ∧
      (Demo.rr.ReadAt [0, 0, 0] 0 []).ret = (⟨[7, 8, 9], true, 3⟩, none) ∧
      (Demo.rr.ReadAt [0, 0, 0] 0 []).calls =
        [Call.ReadAt 0 [0, 0, 0] 0, Call.ReadAt 1 [0, 0, 0] 0] := by
  decide

/-- C6 fails on the code: `readManager.Destroy` on the two-strategy manager
`Demo.rr` invokes the `Destroy` of neither strategy (zero times, not once)
and leaves the world untouched, where a call of a strategy's own `Destroy`
would have left its record. -/
theorem Destroy_invokes_no_strategy_Destroy :
    (Demo.rr.Destroy []).calls.count (Call.Destroy 0) = 0 ∧
      (Demo.rr.Destroy []).calls.count (Call.Destroy 1) = 0 ∧
      (Demo.rr.Destroy []).world = [] ∧
      (Demo.strategy 0 (⟨[], false, 0⟩, some context.Canceled)).Destroy [] = [Call.Destroy 0] := by
  decide

/-- C7, as the code has it. The manager keeps no record of `Destroy`: the
manager `Destroy` returns has the fields it had, and in every world `w2` a
`ReadAt` on it does what a `ReadAt` before `Destroy` does (`io.EOF` at or
beyond the size, the strategy chain below it). -/
theorem ReadAt_after_Destroy_is_ReadAt (rr : readManager W SR) (p : Bytes) (offset : Int)
    (w w2 : W) :
    (rr.Destroy w).rr = rr ∧
      (rr.Destroy w).rr.ReadAt p offset w2 = rr.ReadAt p offset w2 :=
  ⟨rfl, rfl⟩

/-- C7 fails as stated: after `Destroy` on `Demo.rr`, `ReadAt` returns data
with a nil error and invokes both strategies. -/
theorem ReadAt_after_Destroy_serves_data :
    ((Demo.rr.Destroy []).rr.ReadAt [0, 0, 0] 0 (Demo.rr.Destroy []).world).ret =
        (⟨[7, 8, 9], true, 3⟩, none) ∧
      ((Demo.rr.Destroy []).rr.ReadAt [0, 0, 0] 0 (Demo.rr.Destroy []).world).calls =
        [Call.ReadAt 0 [0, 0, 0] 0, Call.ReadAt 1 [0, 0, 0] 0] := by
  decide

/-- C8, as the code has it. `readManager.ReadAt` has no case for a zero-length
buffer. With the empty buffer it returns `io.EOF` with `Size` 0, invoking no
strategy, at or beyond the object size; below the object size it returns a
nil error with `Size` 0 when the strategy list is empty, and when the first
strategy to return a nil error reports `Size` 0. -/
theorem ReadAt_empty_buffer (rr : readManager W SR) (offset : Int) (w : W) :
    (int64 rr.object.Size ≤ offset →
        (rr.ReadAt [] offset w).ret = (⟨[], false, 0⟩, some io.EOF) ∧
          (rr.ReadAt [] offset w).calls = []) ∧
      (offset < int64 rr.object.Size → rr.readers = [] →
        (rr.ReadAt [] offset w).ret = (⟨[], false, 0⟩, none)) ∧
      (offset < int64 rr.object.Size → ∀ k od,
        (∀ i, i < k → ∃ d e, answerAt [] offset rr.readers w i = some (d, some e)) →
        answerAt [] offset rr.readers w k = some (od, none) → od.Size = 0 →
        (rr.ReadAt [] offset w).ret.2 = none ∧ (rr.ReadAt [] offset w).ret.1.Size = 0) := by
  refine ⟨?_, ?_, ?_⟩
  · intro h
    rw [ReadAt_eof rr [] offset w h]
    exact ⟨rfl, rfl⟩
  · intro h hnil
    rw [ReadAt_loop rr [] offset w h, hnil]
    rfl
  · intro h k od hfail hk hzero
    have hret := (chain_first_success rr [] offset w k od h hfail hk).1
    rw [hret]
    exact ⟨rfl, hzero⟩

/-- C8, as the code has it, at `Demo.rr`, `Demo.bare` and `Demo.quiet`. -/
theorem ReadAt_empty_buffer_witness :
    ((Demo.rr.ReadAt [] 10 []).ret = (⟨[], false, 0⟩, some io.EOF) ∧
        (Demo.rr.ReadAt [] 10 []).calls = []) ∧
      (Demo.bare.ReadAt [] 0 []).ret = (⟨[], false, 0⟩, none) ∧
      ((Demo.quiet.ReadAt [] 0 []).ret.2 = none ∧ (Demo.quiet.ReadAt [] 0 []).ret.1.Size = 0) :=
  ⟨(ReadAt_empty_buffer Demo.rr 10 []).1 (by decide),
    (ReadAt_empty_buffer Demo.bare 0 []).2.1 (by decide) rfl,
    (ReadAt_empty_buffer Demo.quiet 0 []).2.2 (by decide) 0 ⟨[], false, 0⟩
      (fun i hi => absurd hi (Nat.not_lt_zero i)) rfl rfl⟩

/-- C8 fails as stated: with a zero-length buffer `ReadAt` returns `io.EOF`
at an offset equal to the object size, and below the object size it returns
the last strategy's error when every strategy fails. -/
theorem ReadAt_empty_buffer_can_fail :
    (Demo.rr.ReadAt [] 10 []).ret = (⟨[], false, 0⟩, some io.EOF) ∧
      (Demo.failing.ReadAt [] 0 []).ret = (⟨[], false, 0⟩, some ⟨"cache miss"⟩) := by
  decide

/-- C9 fails on the code: whatever object record `o` the manager is built
for, `Object()` of the manager `NewReadManager` returns is nil, not `o`. -/
theorem NewReadManager_Object_is_nil {B CH MH MRD : Type}
    (gcsMethods : GCSReader B MH MRD → Reader W)
    (fileCacheMethods : FileCacheReader B CH MH → Reader W)
    (o : gcs.MinObject) (bucket : B) (sequentialReadSizeMb : Int)
    (fileCacheHandler : Option CH) (cacheFileForRangeRead : Bool) (metricHandle : MH)
    (mrdWrapper : Option MRD) (w : W) :
    ((NewReadManager gcsMethods fileCacheMethods (some o) bucket sequentialReadSizeMb
        fileCacheHandler cacheFileForRangeRead metricHandle mrdWrapper :
        readManager W SR).Object w).ret = none ∧
      ((NewReadManager gcsMethods fileCacheMethods (some o) bucket sequentialReadSizeMb
        fileCacheHandler cacheFileForRangeRead metricHandle mrdWrapper :
        readManager W SR).Object w).ret ≠ some o :=
  ⟨rfl, fun h => Option.noConfusion h⟩

/-- C10. During one `readManager.ReadAt` the strategies invoked are those at
positions `0 .. n-1` for some `n` up to the length of the list, in list
order, so each strategy's `ReadAt` is invoked at most once. -/
theorem ReadAt_calls_are_a_prefix (rr : readManager W SR) (p : Bytes) (offset : Int) (w : W) :
    (∃ n, n ≤ rr.readers.length ∧ (rr.ReadAt p offset w).calls = readCalls p offset n) ∧
      (∀ i, ((rr.ReadAt p offset w).calls.filter fun c => c.position == i).length ≤ 1) := by
  have hex : ∃ n, n ≤ rr.readers.length ∧ (rr.ReadAt p offset w).calls = readCalls p offset n := by
    rcases le_or_lt (int64 rr.object.Size) offset with h | h
    · exact ⟨0, Nat.zero_le _, by rw [ReadAt_eof rr p offset w h]; rfl⟩
    · obtain ⟨n, hn, hc, _⟩ := ReadAt_chain rr p offset w h
      exact ⟨n, hn, hc⟩
  refine ⟨hex, ?_⟩
  obtain ⟨n, _, hc⟩ := hex
  intro i
  rw [hc]
  exact readCalls_position_le_one p offset n i

/-- C18 fails on the code: `NewReadManager` leaves `object` at its zero value,
so the size the end-of-data check compares against is 0, not `o.Size`: for
every object record `o` and every offset `0 ≤ offset`, also below `o.Size`,
`ReadAt` on the manager built for `o` returns `io.EOF` and passes nothing to
the strategy chain. -/
theorem NewReadManager_ReadAt_is_EOF {B CH MH MRD : Type}
    (gcsMethods : GCSReader B MH MRD → Reader W)
    (fileCacheMethods : FileCacheReader B CH MH → Reader W)
    (o : gcs.MinObject) (bucket : B) (sequentialReadSizeMb : Int)
    (fileCacheHandler : Option CH) (cacheFileForRangeRead : Bool) (metricHandle : MH)
    (mrdWrapper : Option MRD) (p : Bytes) (offset : Int) (w : W) (hoff : 0 ≤ offset) :
    ((NewReadManager gcsMethods fileCacheMethods (some o) bucket sequentialReadSizeMb
        fileCacheHandler cacheFileForRangeRead metricHandle mrdWrapper :
        readManager W SR).ReadAt p offset w).ret = (⟨p, false, 0⟩, some io.EOF) ∧
      ((NewReadManager gcsMethods fileCacheMethods (some o) bucket sequentialReadSizeMb
        fileCacheHandler cacheFileForRangeRead metricHandle mrdWrapper :
        readManager W SR).ReadAt p offset w).calls = [] := by
  have h : int64 (NewReadManager gcsMethods fileCacheMethods (some o) bucket sequentialReadSizeMb
      fileCacheHandler cacheFileForRangeRead metricHandle mrdWrapper :
      readManager W SR).object.Size ≤ offset := by
    have h0 : int64 0 = 0 := by decide
    show int64 0 ≤ offset
    rw [h0]
    exact hoff
  rw [ReadAt_eof _ p offset w h]
  exact ⟨rfl, rfl⟩

/-- C18 at `Demo.built`, the manager built for the 10-byte `Demo.object`, at offset 0. -/
theorem NewReadManager_ReadAt_is_EOF_witness :
    (0 : Int) < Demo.object.Size ∧
      (Demo.built.ReadAt [0, 0, 0] 0 []).ret = (⟨[0, 0, 0], false, 0⟩, some io.EOF) ∧
      (Demo.built.ReadAt [0, 0, 0] 0 []).calls = [] :=
  ⟨by decide,
    NewReadManager_ReadAt_is_EOF Demo.gcsMethods Demo.fileCacheMethods Demo.object () 200 none
      false () none [0, 0, 0] 0 [] (le_refl 0)⟩

/-- C19. The manager `NewReadManager` returns satisfies
`(reader == nil) == (cancel == nil)`; each of `ReadAt`, `Object`,
`CheckInvariants` and `Destroy` leaves a manager that satisfies it in a state
that satisfies it; and no sequence of these operations run on the manager
`NewReadManager` returns panics: every run ends normally, in a manager that
satisfies the invariant. -/
theorem Paired_from_construction {B CH MH MRD : Type}
    (gcsMethods : GCSReader B MH MRD → Reader W)
    (fileCacheMethods : FileCacheReader B CH MH → Reader W)
    (o : Option gcs.MinObject) (bucket : B) (sequentialReadSizeMb : Int)
    (fileCacheHandler : Option CH) (cacheFileForRangeRead : Bool) (metricHandle : MH)
    (mrdWrapper : Option MRD) :
    (NewReadManager gcsMethods fileCacheMethods o bucket sequentialReadSizeMb
        fileCacheHandler cacheFileForRangeRead metricHandle mrdWrapper :
        readManager W SR).Paired ∧
      (∀ (rr : readManager W SR) (op : Op) (w : W), rr.Paired →
        ∃ rr1 w1, op.step rr w = Except.ok (rr1, w1) ∧ rr1.Paired) ∧
      (∀ (ops : List Op) (w : W), ∃ rr1 w1,
        run ops (NewReadManager gcsMethods fileCacheMethods o bucket sequentialReadSizeMb
          fileCacheHandler cacheFileForRangeRead metricHandle mrdWrapper : readManager W SR) w =
            Except.ok (rr1, w1) ∧ rr1.Paired ∧
          ∃ out, rr1.CheckInvariants w1 = Except.ok out) := by
  refine ⟨rfl, fun rr op w h => step_keeps_Paired rr op w h, ?_⟩
  intro ops w
  obtain ⟨rr1, w1, hrun, hp⟩ := run_keeps_Paired ops
    (NewReadManager gcsMethods fileCacheMethods o bucket sequentialReadSizeMb
      fileCacheHandler cacheFileForRangeRead metricHandle mrdWrapper : readManager W SR) w rfl
  exact ⟨rr1, w1, hrun, hp, CheckInvariants_ok_of_Paired rr1 w1 hp⟩

/-- C20. The chain `NewReadManager` builds has exactly two entries, the GCS
reader at position 0 and the file-cache reader at position 1, each built from
the arguments as the composite literals say; and the strategy calls of any
`ReadAt` on that manager are a prefix of: GCS reader, then file-cache reader. -/
theorem NewReadManager_readers {B CH MH MRD : Type}
    (gcsMethods : GCSReader B MH MRD → Reader W)
    (fileCacheMethods : FileCacheReader B CH MH → Reader W)
    (o : Option gcs.MinObject) (bucket : B) (sequentialReadSizeMb : Int)
    (fileCacheHandler : Option CH) (cacheFileForRangeRead : Bool) (metricHandle : MH)
    (mrdWrapper : Option MRD) (p : Bytes) (offset : Int) (w : W) :
    (NewReadManager gcsMethods fileCacheMethods o bucket sequentialReadSizeMb
        fileCacheHandler cacheFileForRangeRead metricHandle mrdWrapper :
        readManager W SR).readers =
        [gcsMethods
            { Obj := o, Bucket := bucket, Start := -1, Limit := -1, Seeks := 0,
              TotalReadBytes := 0,
              RangeReader :=
                { Obj := o, Bucket := bucket, Start := -1, Limit := -1, Seeks := 0,
                  MetricHandle := metricHandle, TotalReadBytes := 0 },
              Mrr := { MrdWrapper := mrdWrapper, MetricHandle := metricHandle },
              SequentialReadSizeMb := sequentialReadSizeMb },
          fileCacheMethods
            { Obj := o, Bucket := bucket, FileCacheHandler := fileCacheHandler,
              CacheFileForRangeRead := cacheFileForRangeRead, MetricHandle := metricHandle }] ∧
      (((NewReadManager gcsMethods fileCacheMethods o bucket sequentialReadSizeMb
          fileCacheHandler cacheFileForRangeRead metricHandle mrdWrapper :
          readManager W SR).ReadAt p offset w).calls = [] ∨
        ((NewReadManager gcsMethods fileCacheMethods o bucket sequentialReadSizeMb
          fileCacheHandler cacheFileForRangeRead metricHandle mrdWrapper :
          readManager W SR).ReadAt p offset w).calls = [Call.ReadAt 0 p offset] ∨
        ((NewReadManager gcsMethods fileCacheMethods o bucket sequentialReadSizeMb
          fileCacheHandler cacheFileForRangeRead metricHandle mrdWrapper :
          readManager W SR).ReadAt p offset w).calls =
            [Call.ReadAt 0 p offset, Call.ReadAt 1 p offset]) := by
  refine ⟨rfl, ?_⟩
  obtain ⟨n, hn, hc⟩ := calls_prefix
    (NewReadManager gcsMethods fileCacheMethods o bucket sequentialReadSizeMb
      fileCacheHandler cacheFileForRangeRead metricHandle mrdWrapper : readManager W SR) p offset w
  have hn2 : n ≤ 2 := hn
  rw [hc]
  interval_cases n
  · left
    rfl
  · right
    left
    rfl
  · right
    right
    rfl

end

end gcsx

/-! # The metadata cache layer, folder rename and the stale-handle detector -/

namespace fs

open gcsx

/-! ## Lemmas on handles -/

theorem handle_setHandle (s : FS) (id : Nat) (h : Handle) : (s.setHandle id h).handle id = some h := by
  simp [FS.handle, FS.setHandle]

theorem handle_remoteCreate (s : FS) (n : Name) (contents : Bytes) (symlink : Bool) (mtime : Int)
    (id : Nat) : (s.remoteCreate n contents symlink mtime).handle id = s.handle id :=
  rfl

theorem handle_deleteLocal (s : FS) (n : Name) (id : Nat) (h : Handle)
    (hh : s.handle id = some h) (hn : h.name = n) :
    (s.deleteLocal n).handle id = some { h with unlinked := true } := by
  unfold FS.handle at hh
  cases hf : s.handles.find? (fun e => e.1 == id) with
  | none => simp [hf] at hh
  | some e =>
    rw [hf] at hh
    have he : e.2 = h := by simpa using hh
    have hcomp : ((fun (e : Nat × Handle) => e.1 == id) ∘ fun (e : Nat × Handle) =>
        if e.2.name == n then (e.1, { e.2 with unlinked := true }) else e) =
        fun e => e.1 == id := by
      funext x
      by_cases hx : x.2.name == n <;> simp [Function.comp, hx]
    simp only [FS.deleteLocal, FS.eraseType, FS.Invalidate, FS.handle, List.find?_map, hcomp, hf,
      Option.map_some']
    simp [he, hn]

theorem StatObject_CreateObject (b : Bucket) (n : Name) (contents : Bytes) (symlink : Bool)
    (mtime : Int) :
    (b.CreateObject n contents symlink mtime).StatObject n =
      some (Bucket.record n ⟨b.nextGeneration, contents, kindOf n symlink, mtime⟩) := by
  simp [Bucket.StatObject, Bucket.get, Bucket.CreateObject]

theorem get_CreateObject (b : Bucket) (n : Name) (contents : Bytes) (symlink : Bool)
    (mtime : Int) :
    (b.CreateObject n contents symlink mtime).get n =
      some ⟨b.nextGeneration, contents, kindOf n symlink, mtime⟩ := by
  simp [Bucket.get, Bucket.CreateObject]

/-- The detector on a handle whose backing object was replaced by another actor. -/
theorem flush_after_replace (s : FS) (id : Nat) (h : Handle) (n : Name) (contents : Bytes)
    (symlink : Bool) (mtime : Int) (hname : h.name = n) (hlinked : h.unlinked = false)
    (hgen : h.generation < s.bucket.nextGeneration) :
    (s.remoteCreate n contents symlink mtime).flush id h =
      (some FsError.Stale, s.remoteCreate n contents symlink mtime) := by
  have hne : ¬ (s.bucket.nextGeneration = h.generation) := by omega
  simp [FS.flush, hlinked, FS.remoteCreate, hname, StatObject_CreateObject, Bucket.record, hne]

/-! ## The claims on handles -/

/-- C16. A handle that is not unlinked has been written to; another actor then
replaces the backing object on the remote side, which gives it a generation
the store had not issued when the handle captured its own. Then close fails
with the stale-handle error and uploads nothing: the bucket is as the other
actor left it and holds that actor's contents. With streamed writes disabled
sync fails in the same way and changes nothing, and so does the close after it. -/
theorem close_of_clobbered_handle_is_stale (s : FS) (id : Nat) (h : Handle) (data : Bytes)
    (offset : Nat) (contents : Bytes) (symlink : Bool) (mtime : Int)
    (hh : s.handle id = some h) (hlinked : h.unlinked = false)
    (hgen : h.generation < s.bucket.nextGeneration) :
    (((s.writeAt id data offset).2.remoteCreate h.name contents symlink mtime).close id).1 =
        some FsError.Stale ∧
      (((s.writeAt id data offset).2.remoteCreate h.name contents symlink mtime).close id).2.bucket =
        (s.remoteCreate h.name contents symlink mtime).bucket ∧
      ((((s.writeAt id data offset).2.remoteCreate h.name contents symlink mtime).close id).2.bucket.get
          h.name).map (fun o => o.contents) = some contents ∧
      (s.streamingWrites = false →
        (((s.writeAt id data offset).2.remoteCreate h.name contents symlink mtime).sync id) =
            (some FsError.Stale,
              (s.writeAt id data offset).2.remoteCreate h.name contents symlink mtime) ∧
          ((((s.writeAt id data offset).2.remoteCreate h.name contents symlink mtime).sync id).2.close
            id).1 = some FsError.Stale) := by
  have hw : (s.writeAt id data offset).2 =
      s.setHandle id { h with buffer := some (overlay
        (h.buffer.getD (((s.bucket.get h.name).map fun o => o.contents).getD [])) offset data) } := by
    simp [FS.writeAt, hh]
  rw [hw]
  generalize hbuf : some (overlay
    (h.buffer.getD (((s.bucket.get h.name).map fun o => o.contents).getD [])) offset data) = buf
  have hhandle : ((s.setHandle id { h with buffer := buf }).remoteCreate h.name contents symlink
      mtime).handle id = some { h with buffer := buf } := by
    rw [handle_remoteCreate, handle_setHandle]
  have hflush := flush_after_replace (s.setHandle id { h with buffer := buf }) id
    { h with buffer := buf } h.name contents symlink mtime rfl hlinked hgen
  have hclose : ((s.setHandle id { h with buffer := buf }).remoteCreate h.name contents symlink
      mtime).close id = (some FsError.Stale,
        ((s.setHandle id { h with buffer := buf }).remoteCreate h.name contents symlink
          mtime).dropHandle id) := by
    simp only [FS.close, hhandle, hflush]
  refine ⟨by rw [hclose], by rw [hclose]; rfl, ?_, ?_⟩
  · rw [hclose]
    show (((s.bucket.CreateObject h.name contents symlink mtime).get h.name).map
      fun o => o.contents) = some contents
    rw [get_CreateObject]
    rfl
  · intro hstream
    have hs2 : ((s.setHandle id { h with buffer := buf }).remoteCreate h.name contents symlink
        mtime).streamingWrites = false := hstream
    have hsync : ((s.setHandle id { h with buffer := buf }).remoteCreate h.name contents symlink
        mtime).sync id = (some FsError.Stale,
          (s.setHandle id { h with buffer := buf }).remoteCreate h.name contents symlink mtime) := by
      simp only [FS.sync, hhandle, hs2, hflush]
      simp
    refine ⟨hsync, ?_⟩
    rw [hsync, hclose]

/-- C16 at `Demo.opened`: `burrito` is written through handle 0, then another
actor replaces `f`. -/
theorem close_of_clobbered_handle_is_stale_witness :
    (((Demo.opened.writeAt 0 Demo.burrito 0).2.remoteCreate Demo.handle.name [1, 2] false 0).close
        0).1 = some FsError.Stale ∧
      (((Demo.opened.writeAt 0 Demo.burrito 0).2.remoteCreate Demo.handle.name [1, 2] false 0).close
        0).2.bucket = (Demo.opened.remoteCreate Demo.handle.name [1, 2] false 0).bucket ∧
      ((((Demo.opened.writeAt 0 Demo.burrito 0).2.remoteCreate Demo.handle.name [1, 2] false
          0).close 0).2.bucket.get Demo.handle.name).map (fun o => o.contents) = some [1, 2] ∧
      (Demo.opened.streamingWrites = false →
        (((Demo.opened.writeAt 0 Demo.burrito 0).2.remoteCreate Demo.handle.name [1, 2] false
            0).sync 0) =
            (some FsError.Stale,
              (Demo.opened.writeAt 0 Demo.burrito 0).2.remoteCreate Demo.handle.name [1, 2] false
                0) ∧
          ((((Demo.opened.writeAt 0 Demo.burrito 0).2.remoteCreate Demo.handle.name [1, 2] false
            0).sync 0).2.close 0).1 = some FsError.Stale) :=
  close_of_clobbered_handle_is_stale Demo.opened 0 Demo.handle Demo.burrito 0 [1, 2] false 0
    (by decide) rfl (by decide)

/-- C17. A handle on the file `p` has been written to, `p` is then unlinked
through the file system, and the handle is written to again: the later write,
the sync after it and the close after that all return without error, whatever
the remote side holds and whether or not writes are streamed. -/
theorem unlinked_handle_is_not_checked (s : FS) (id : Nat) (h : Handle) (p : List String)
    (d1 d2 : Bytes) (o1 o2 : Nat)
    (hh : s.handle id = some h) (hname : h.name = ⟨p, false⟩) :
    (((s.writeAt id d1 o1).2.unlink p).writeAt id d2 o2).1 = none ∧
      ((((s.writeAt id d1 o1).2.unlink p).writeAt id d2 o2).2.sync id).1 = none ∧
      (((((s.writeAt id d1 o1).2.unlink p).writeAt id d2 o2).2.sync id).2.close id).1 = none := by
  have hw : (s.writeAt id d1 o1).2 =
      s.setHandle id { h with buffer := some (overlay
        (h.buffer.getD (((s.bucket.get h.name).map fun o => o.contents).getD [])) o1 d1) } := by
    simp [FS.writeAt, hh]
  rw [hw]
  generalize hbuf : some (overlay
    (h.buffer.getD (((s.bucket.get h.name).map fun o => o.contents).getD [])) o1 d1) = buf
  have h2 : ((s.setHandle id { h with buffer := buf }).unlink p).handle id =
      some { h with buffer := buf, unlinked := true } :=
    handle_deleteLocal (s.setHandle id { h with buffer := buf }) ⟨p, false⟩ id
      { h with buffer := buf } (handle_setHandle s id _) hname
  generalize hs2 : (s.setHandle id { h with buffer := buf }).unlink p = s2 at h2
  have hw2 : s2.writeAt id d2 o2 = (none, s2.setHandle id
      { h with unlinked := true, buffer := some (overlay
        (buf.getD (((s2.bucket.get h.name).map fun o => o.contents).getD [])) o2 d2) }) := by
    simp [FS.writeAt, h2]
  rw [hw2]
  generalize hbuf3 : some (overlay
    (buf.getD (((s2.bucket.get h.name).map fun o => o.contents).getD [])) o2 d2) = buf3
  have h3 : (s2.setHandle id { h with unlinked := true, buffer := buf3 }).handle id =
      some { h with unlinked := true, buffer := buf3 } := handle_setHandle s2 id _
  have hflush : (s2.setHandle id { h with unlinked := true, buffer := buf3 }).flush id
      { h with unlinked := true, buffer := buf3 } =
      (none, s2.setHandle id { h with unlinked := true, buffer := buf3 }) := by
    simp [FS.flush]
  have hsync : (s2.setHandle id { h with unlinked := true, buffer := buf3 }).sync id =
      (none, s2.setHandle id { h with unlinked := true, buffer := buf3 }) := by
    simp only [FS.sync, h3, hflush]
    split <;> rfl
  refine ⟨rfl, by rw [hsync], ?_⟩
  rw [hsync]
  simp only [FS.close, h3, hflush]

/-- C17 at `Demo.opened`: handle 0 is on the file `f`. -/
theorem unlinked_handle_is_not_checked_witness :
    (((Demo.opened.writeAt 0 Demo.burrito 0).2.unlink ["f"]).writeAt 0 Demo.burrito 7).1 = none ∧
      ((((Demo.opened.writeAt 0 Demo.burrito 0).2.unlink ["f"]).writeAt 0 Demo.burrito 7).2.sync
        0).1 = none ∧
      (((((Demo.opened.writeAt 0 Demo.burrito 0).2.unlink ["f"]).writeAt 0 Demo.burrito 7).2.sync
        0).2.close 0).1 = none :=
  unlinked_handle_is_not_checked Demo.opened 0 Demo.handle ["f"] Demo.burrito Demo.burrito 0 7
    (by decide) rfl

/-! ## Lemmas on the stat cache -/

theorem Stat_of_absent (s : FS) (n : Name) (h : s.statCache.find s.scope n = none) :
    s.Stat n = s.refresh n := by
  simp [FS.Stat, h]

theorem get_eq_none_iff (b : Bucket) (n : Name) :
    b.get n = none ↔ ∀ e ∈ b.objects, e.1 ≠ n := by
  simp [Bucket.get]

theorem get_ne_none_mem (b : Bucket) (n : Name) (h : b.get n ≠ none) :
    ∃ o, (n, o) ∈ b.objects := by
  by_contra hcon
  apply h
  rw [get_eq_none_iff]
  intro e he heq
  exact hcon ⟨e.2, by rw [← heq]; exact he⟩

/-! ## Lemmas on folder rename -/

theorem destinationFree_iff (b : Bucket) (dst : List String) :
    b.destinationFree dst = true ↔ ∀ e ∈ b.objects, dst <+: e.1.path → e.1 = ⟨dst, true⟩ := by
  simp only [Bucket.destinationFree, List.all_eq_true, List.mem_filter, decide_eq_true_eq,
    beq_iff_eq, and_imp]

theorem underFolder_iff (src : List String) (n : Name) :
    underFolder src n = true ↔ src <+: n.path ∧ (n.dir = true ∨ n.path ≠ src) := by
  simp [underFolder]

theorem rekey_injective (src dst : List String) (m n : Name)
    (hm : underFolder src m = true) (hn : underFolder src n = true)
    (h : rekey src dst m = rekey src dst n) : m = n := by
  rw [underFolder_iff] at hm hn
  have hpm := List.prefix_iff_eq_append.mp hm.1
  have hpn := List.prefix_iff_eq_append.mp hn.1
  simp only [rekey, Name.mk.injEq, List.append_cancel_left_eq] at h
  cases m with
  | mk mp md =>
    cases n with
    | mk np nd =>
      simp only at h hpm hpn
      simp only [Name.mk.injEq]
      refine ⟨?_, h.2⟩
      rw [← hpm, ← hpn, h.1]

/-- A folder rename that passes the preconditions renames the subtree. -/
theorem renameFolder_ok (s : FS) (src dst : List String)
    (hsrc : s.bucket.get ⟨src, true⟩ ≠ none)
    (hdst : s.bucket.destinationFree dst = true) (hne : src ≠ dst) :
    s.renameFolder src dst =
      (none,
        { s with
          bucket :=
            if s.bucket.hierarchical then s.bucket.RenameHierarchical src dst
            else s.bucket.renameByCopy src dst
          statCache :=
            { s.statCache with
              entries := s.statCache.entries.filter fun e =>
                !(e.scope == s.scope &&
                  (decide (src <+: e.name.path) || decide (dst <+: e.name.path))) }
          typeCache := s.typeCache.filter fun e =>
            !(decide (src <+: e.path) || decide (dst <+: e.path)) }) := by
  unfold FS.renameFolder
  rw [if_neg hsrc, hdst, if_neg (by simp), if_neg hne]

/-- After a folder rename that passed the preconditions, the stat of a name
at or under the old or the new path goes to the bucket. -/
theorem Stat_after_renameFolder (s : FS) (src dst : List String) (n : Name)
    (hsrc : s.bucket.get ⟨src, true⟩ ≠ none)
    (hdst : s.bucket.destinationFree dst = true) (hne : src ≠ dst)
    (hn : src <+: n.path ∨ dst <+: n.path) :
    ((s.renameFolder src dst).2.Stat n).1 = (s.renameFolder src dst).2.bucket.StatObject n := by
  rw [renameFolder_ok s src dst hsrc hdst hne]
  rw [Stat_of_absent]
  · rfl
  · simp only [StatCache.find, List.find?_eq_none]
    intro e he
    simp only [List.mem_filter] at he
    intro hk
    simp only [StatCacheEntry.keyed, Bool.and_eq_true, beq_iff_eq] at hk
    have h2 := he.2
    simp only [hk.1, hk.2, beq_self_eq_true, Bool.true_and, Bool.not_eq_true', Bool.or_eq_false_iff,
      decide_eq_false_iff_not] at h2
    rcases hn with h | h
    · exact h2.1 h
    · exact h2.2 h

theorem get_RenameHierarchical_src (b : Bucket) (src dst : List String)
    (hsrc : b.get ⟨src, true⟩ ≠ none)
    (hdst : b.destinationFree dst = true) (hne : src ≠ dst) :
    (b.RenameHierarchical src dst).get ⟨src, true⟩ = none := by
  rw [get_eq_none_iff]
  intro e he heq
  simp only [Bucket.RenameHierarchical, List.mem_append, List.mem_filter, List.mem_map] at he
  rcases he with ⟨_, hf⟩ | ⟨x, ⟨hx, hux⟩, hxe⟩
  · have hu : underFolder src e.1 = true := by
      rw [heq, underFolder_iff]
      exact ⟨List.prefix_refl _, Or.inl rfl⟩
    simp [hu] at hf
  · obtain ⟨o, ho⟩ := get_ne_none_mem b _ hsrc
    have hpre : dst <+: src := by
      have : (rekey src dst x.1).path = src := by
        rw [← hxe] at heq
        simpa using congrArg Name.path heq
      rw [← this]
      exact List.prefix_append _ _
    have := (destinationFree_iff b dst).mp hdst (⟨src, true⟩, o) ho hpre
    simp only [Name.mk.injEq, and_true] at this
    exact hne this

theorem get_RenameHierarchical_moved (b : Bucket) (src dst : List String) (n : Name)
    (hdst : b.destinationFree dst = true) (hn : underFolder src n = true) :
    (b.RenameHierarchical src dst).get (rekey src dst n) = b.get n := by
  have hfirst : (b.objects.filter fun e =>
      !(underFolder src e.1) && !(e.1 == (⟨dst, true⟩ : Name))).find?
        (fun e => e.1 == rekey src dst n) = none := by
    rw [List.find?_eq_none]
    intro e he hk
    simp only [List.mem_filter, Bool.and_eq_true, Bool.not_eq_true', beq_eq_false_iff_ne] at he
    have hek : e.1 = rekey src dst n := by simpa using hk
    have hpre : dst <+: e.1.path := by
      rw [hek]
      exact List.prefix_append _ _
    exact he.2.2 ((destinationFree_iff b dst).mp hdst e he.1 hpre)
  have hpred : ((fun (e : Name × Object) => e.1 == rekey src dst n) ∘
      fun (e : Name × Object) => (rekey src dst e.1, e.2)) =
      fun e => rekey src dst e.1 == rekey src dst n := rfl
  have hsecond : (b.objects.find? fun a =>
      decide (underFolder src a.1 = true ∧ (rekey src dst a.1 == rekey src dst n) = true)) =
      b.objects.find? fun e => e.1 == n := by
    congr 1
    funext e
    by_cases hen : e.1 = n
    · simp [hen, hn]
    · have hr : ¬ (underFolder src e.1 = true ∧ rekey src dst e.1 = rekey src dst n) := by
        rintro ⟨hu, hr⟩
        exact hen (rekey_injective src dst e.1 n hu hn hr)
      simp only [beq_iff_eq, hr, decide_False]
      exact (beq_eq_false_iff_ne.mpr hen).symm
  simp only [Bucket.get, Bucket.RenameHierarchical, List.find?_append, hfirst, Option.none_or,
    List.find?_map, hpred, List.find?_filter, Option.map_map]
  rw [hsecond]
  rfl

/-! ## The claim on folder renames that are rejected -/

/-- C14. The rename of a folder whose source does not exist fails with the
not-found error and changes nothing: a destination that was absent is still
absent. The rename onto an existing directory that is not empty fails (with
the precondition error when the source exists) and changes nothing, neither
under the source nor under the destination. -/
theorem renameFolder_rejects_without_side_effects (s : FS) (src dst : List String) :
    (s.bucket.get ⟨src, true⟩ = none →
        s.renameFolder src dst = (some FsError.NotFound, s) ∧
          ∀ k, s.bucket.get ⟨dst, k⟩ = none → (s.renameFolder src dst).2.bucket.get ⟨dst, k⟩ = none) ∧
      ((s.bucket.get ⟨dst, true⟩ ≠ none ∧ ∃ e ∈ s.bucket.objects, dst <+: e.1.path ∧ e.1.path ≠ dst) →
        (s.renameFolder src dst).1 ≠ none ∧ (s.renameFolder src dst).2 = s ∧
          (s.bucket.get ⟨src, true⟩ ≠ none →
            s.renameFolder src dst = (some FsError.PreconditionFailed, s))) := by
  constructor
  · intro hsrc
    have hr : s.renameFolder src dst = (some FsError.NotFound, s) := by
      unfold FS.renameFolder
      rw [if_pos hsrc]
    refine ⟨hr, ?_⟩
    intro k hk
    rw [hr]
    exact hk
  · rintro ⟨_, e, he, hpre, hpath⟩
    have hfull : s.bucket.destinationFree dst = false := by
      cases hfree : s.bucket.destinationFree dst with
      | false => rfl
      | true =>
        have := (destinationFree_iff s.bucket dst).mp hfree e he hpre
        rw [this] at hpath
        exact absurd rfl hpath
    by_cases hsrc : s.bucket.get ⟨src, true⟩ = none
    · have hr : s.renameFolder src dst = (some FsError.NotFound, s) := by
        unfold FS.renameFolder
        rw [if_pos hsrc]
      rw [hr]
      exact ⟨by simp, rfl, fun h => absurd hsrc h⟩
    · have hr : s.renameFolder src dst = (some FsError.PreconditionFailed, s) := by
        unfold FS.renameFolder
        rw [if_neg hsrc, hfull]
        simp
      rw [hr]
      exact ⟨by simp, rfl, fun _ => rfl⟩

/-- C14 at `Demo.tree` (no `foo_not_exist`) and at `Demo.treeWithFullBar`
(`bar/` holds `bar/file3.txt`). -/
theorem renameFolder_rejects_without_side_effects_witness :
    (Demo.tree.renameFolder ["foo_not_exist"] ["foo_rename"] = (some FsError.NotFound, Demo.tree) ∧
        ∀ k, Demo.tree.bucket.get ⟨["foo_rename"], k⟩ = none →
          (Demo.tree.renameFolder ["foo_not_exist"] ["foo_rename"]).2.bucket.get
            ⟨["foo_rename"], k⟩ = none) ∧
      ((Demo.treeWithFullBar.renameFolder ["foo"] ["bar"]).1 ≠ none ∧
        (Demo.treeWithFullBar.renameFolder ["foo"] ["bar"]).2 = Demo.treeWithFullBar ∧
        (Demo.treeWithFullBar.bucket.get ⟨["foo"], true⟩ ≠ none →
          Demo.treeWithFullBar.renameFolder ["foo"] ["bar"] =
            (some FsError.PreconditionFailed, Demo.treeWithFullBar))) :=
  ⟨(renameFolder_rejects_without_side_effects Demo.tree ["foo_not_exist"] ["foo_rename"]).1
      (by decide),
    (renameFolder_rejects_without_side_effects Demo.treeWithFullBar ["foo"] ["bar"]).2
      ⟨by decide, (⟨["bar", "file3.txt"], false⟩, ⟨6, Demo.taco, gcs.ObjectKind.regular, 0⟩),
        by decide, by decide, by decide⟩⟩

/-! ## Lemmas on the staleness window -/

theorem keyed_of_find (c : StatCache) (scope : String) (n : Name) (e : StatCacheEntry)
    (h : c.find scope n = some e) : e.scope = scope ∧ e.name = n := by
  have := List.find?_some h
  simpa [StatCacheEntry.keyed] using this

theorem find_touch (c : StatCache) (e : StatCacheEntry) :
    (c.touch e).find e.scope e.name = some e := by
  simp [StatCache.find, StatCache.touch, StatCacheEntry.keyed]

theorem find_Insert (c : StatCache) (e : StatCacheEntry) (hcap : 0 < c.capacity) :
    (c.Insert e).find e.scope e.name = some e := by
  obtain ⟨k, hk⟩ : ∃ k, c.capacity = k + 1 := ⟨c.capacity - 1, by omega⟩
  simp [StatCache.find, StatCache.Insert, StatCacheEntry.keyed, hk, List.take_succ_cons]

theorem Stat_hit (s : FS) (n : Name) (e : StatCacheEntry)
    (h : s.statCache.find s.scope n = some e) (hlive : ¬ s.now - e.inserted > s.statTTL) :
    s.Stat n = (e.record, { s with statCache := s.statCache.touch e }) := by
  simp only [FS.Stat, h, if_neg hlive]

theorem Stat_expired (s : FS) (n : Name) (e : StatCacheEntry)
    (h : s.statCache.find s.scope n = some e) (hexp : s.now - e.inserted > s.statTTL) :
    s.Stat n = s.refresh n := by
  simp only [FS.Stat, h, if_pos hexp]

/-- A stat changes nothing but the stat cache, and not its entry budget. -/
theorem Stat_frame (s : FS) (n : Name) :
    (s.Stat n).2 = { s with statCache := (s.Stat n).2.statCache } ∧
      (s.Stat n).2.statCache.capacity = s.statCache.capacity := by
  unfold FS.Stat
  split
  · split
    · exact ⟨rfl, rfl⟩
    · exact ⟨rfl, rfl⟩
  · exact ⟨rfl, rfl⟩

/-- After a stat the name is cached with what the stat reported. -/
theorem Stat_caches (s : FS) (n : Name) (hcap : 0 < s.statCache.capacity) :
    ∃ e, (s.Stat n).2.statCache.find s.scope n = some e ∧ e.record = (s.Stat n).1 ∧
      (s.statCache.find s.scope n = none → e.inserted = s.now) := by
  cases hf : s.statCache.find s.scope n with
  | none =>
    rw [Stat_of_absent s n hf]
    exact ⟨⟨s.scope, n, s.bucket.StatObject n, s.now⟩,
      find_Insert s.statCache ⟨s.scope, n, s.bucket.StatObject n, s.now⟩ hcap, rfl, fun _ => rfl⟩
  | some e =>
    obtain ⟨hes, hen⟩ := keyed_of_find _ _ _ _ hf
    by_cases hexp : s.now - e.inserted > s.statTTL
    · rw [Stat_expired s n e hf hexp]
      exact ⟨⟨s.scope, n, s.bucket.StatObject n, s.now⟩,
        find_Insert s.statCache ⟨s.scope, n, s.bucket.StatObject n, s.now⟩ hcap, rfl,
        fun h => by simp at h⟩
    · rw [Stat_hit s n e hf hexp]
      refine ⟨e, ?_, rfl, fun h => by simp at h⟩
      have := find_touch s.statCache e
      rw [hes, hen] at this
      exact this

/-- One stat of a name whose entry is either the old one, inserted at `t0`
with the record `r0`, or one fetched after the window from the present bucket. -/
theorem Stat_in_window (s : FS) (n : Name) (t0 : Nat) (r0 : Option gcs.MinObject)
    (hcap : 0 < s.statCache.capacity)
    (hinv : ∃ e, s.statCache.find s.scope n = some e ∧
      ((e.record = r0 ∧ e.inserted = t0) ∨
        (e.record = s.bucket.StatObject n ∧ s.statTTL < e.inserted - t0 ∧ e.inserted ≤ s.now))) :
    (s.now - t0 ≤ s.statTTL → (s.Stat n).1 = r0) ∧
      (s.statTTL < s.now - t0 → (s.Stat n).1 = s.bucket.StatObject n) ∧
      ∃ e, (s.Stat n).2.statCache.find s.scope n = some e ∧
        ((e.record = r0 ∧ e.inserted = t0) ∨
          (e.record = s.bucket.StatObject n ∧ s.statTTL < e.inserted - t0 ∧ e.inserted ≤ s.now)) := by
  obtain ⟨e, hf, hcase⟩ := hinv
  obtain ⟨hes, hen⟩ := keyed_of_find _ _ _ _ hf
  by_cases hexp : s.now - e.inserted > s.statTTL
  · rw [Stat_expired s n e hf hexp]
    have hlate : s.statTTL < s.now - t0 := by
      rcases hcase with ⟨_, hi⟩ | ⟨_, hi, hle⟩
      · rw [← hi]
        exact hexp
      · omega
    refine ⟨fun h => by omega, fun _ => rfl,
      ⟨s.scope, n, s.bucket.StatObject n, s.now⟩,
      find_Insert s.statCache ⟨s.scope, n, s.bucket.StatObject n, s.now⟩ hcap,
      Or.inr ⟨rfl, hlate, le_refl _⟩⟩
  · rw [Stat_hit s n e hf hexp]
    have hfind : (s.statCache.touch e).find s.scope n = some e := by
      have := find_touch s.statCache e
      rw [hes, hen] at this
      exact this
    refine ⟨?_, ?_, e, hfind, hcase⟩
    · intro h
      rcases hcase with ⟨hr, _⟩ | ⟨_, hi, hle⟩
      · exact hr
      · omega
    · intro h
      rcases hcase with ⟨_, hi⟩ | ⟨hr, _, _⟩
      · rw [hi] at hexp
        omega
      · exact hr

/-- Every stat of a run of stats of one name, the bucket unchanged meanwhile. -/
theorem statsAfter_window (n : Name) (t0 : Nat) (r0 : Option gcs.MinObject) (b : Bucket)
    (scope : String) (ttl : Nat) :
    ∀ (ds : List Nat) (s : FS), s.bucket = b → s.scope = scope → s.statTTL = ttl →
      0 < s.statCache.capacity →
      (∃ e, s.statCache.find scope n = some e ∧
        ((e.record = r0 ∧ e.inserted = t0) ∨
          (e.record = b.StatObject n ∧ ttl < e.inserted - t0 ∧ e.inserted ≤ s.now))) →
      ∀ tr ∈ (FS.statsAfter s n ds).1,
        (tr.1 - t0 ≤ ttl → tr.2 = r0) ∧ (ttl < tr.1 - t0 → tr.2 = b.StatObject n) := by
  intro ds
  induction ds with
  | nil =>
    intro s _ _ _ _ _ tr htr
    simp [FS.statsAfter] at htr
  | cons d ds ih =>
    intro s hb hsc httl hcap hinv tr htr
    have hinv1 : ∃ e, (s.advance d).statCache.find (s.advance d).scope n = some e ∧
        ((e.record = r0 ∧ e.inserted = t0) ∨
          (e.record = (s.advance d).bucket.StatObject n ∧
            (s.advance d).statTTL < e.inserted - t0 ∧ e.inserted ≤ (s.advance d).now)) := by
      obtain ⟨e, hf, hcase⟩ := hinv
      refine ⟨e, by simpa [FS.advance, hsc] using hf, ?_⟩
      rcases hcase with h | ⟨hr, hi, hle⟩
      · exact Or.inl h
      · refine Or.inr ⟨by simpa [FS.advance, hb] using hr, by simpa [FS.advance, httl] using hi, ?_⟩
        simp only [FS.advance]
        omega
    obtain ⟨hin, hout, hinv2⟩ := Stat_in_window (s.advance d) n t0 r0 hcap hinv1
    obtain ⟨hframe, hcap2⟩ := Stat_frame (s.advance d) n
    simp only [FS.statsAfter, List.mem_cons] at htr
    rcases htr with rfl | htr
    · refine ⟨fun h => hin (by simpa [FS.advance, httl] using h), fun h => ?_⟩
      have := hout (by simpa [FS.advance, httl] using h)
      simpa [FS.advance, hb] using this
    · have hb2 : ((s.advance d).Stat n).2.bucket = b := by
        rw [hframe]
        exact hb
      have hsc2 : ((s.advance d).Stat n).2.scope = scope := by
        rw [hframe]
        exact hsc
      have httl2 : ((s.advance d).Stat n).2.statTTL = ttl := by
        rw [hframe]
        exact httl
      have hnow2 : ((s.advance d).Stat n).2.now = s.now + d := by
        rw [hframe]
        rfl
      refine ih ((s.advance d).Stat n).2 hb2 hsc2 httl2 (by rw [hcap2]; exact hcap) ?_ tr htr
      obtain ⟨e, hf, hcase⟩ := hinv2
      refine ⟨e, by simpa [FS.advance, hsc] using hf, ?_⟩
      rcases hcase with h | ⟨hr, hi, hle⟩
      · exact Or.inl h
      · refine Or.inr ⟨by simpa [FS.advance, hb] using hr, by simpa [FS.advance, httl] using hi, ?_⟩
        rw [hnow2]
        simpa [FS.advance] using hle

/-! ## The claim on the staleness window -/

/-- C11. With a stat-cache TTL of `T = s.statTTL` and room for an entry: a stat
of `n` leaves `n` cached with what it reported, stamped with the time of the
stat when it had to fetch it. Whatever the remote side then becomes (the
bucket `b`, after an overwrite or a deletion of `n`), every later stat of `n`
made while at most `T` has elapsed since that insertion reports what the
first stat reported, and every stat made after more than `T` has elapsed
reports what the bucket holds now: the new record, or not-found. -/
theorem Stat_staleness_window (s : FS) (n : Name) (b : Bucket) (ds : List Nat)
    (hcap : 0 < s.statCache.capacity) :
    ∃ e, (s.Stat n).2.statCache.find s.scope n = some e ∧ e.record = (s.Stat n).1 ∧
      (s.statCache.find s.scope n = none → e.inserted = s.now) ∧
      ∀ tr ∈ (FS.statsAfter { (s.Stat n).2 with bucket := b } n ds).1,
        (tr.1 - e.inserted ≤ s.statTTL → tr.2 = (s.Stat n).1) ∧
          (s.statTTL < tr.1 - e.inserted → tr.2 = b.StatObject n) := by
  obtain ⟨e, hf, hr, ht⟩ := Stat_caches s n hcap
  obtain ⟨hframe, hcap2⟩ := Stat_frame s n
  refine ⟨e, hf, hr, ht, ?_⟩
  refine statsAfter_window n e.inserted (s.Stat n).1 b s.scope s.statTTL ds
    { (s.Stat n).2 with bucket := b } rfl ?_ ?_ ?_ ⟨e, hf, Or.inl ⟨hr, rfl⟩⟩
  · show (s.Stat n).2.scope = s.scope
    rw [hframe]
  · show (s.Stat n).2.statTTL = s.statTTL
    rw [hframe]
  · show 0 < (s.Stat n).2.statCache.capacity
    rw [hcap2]
    exact hcap

/-! ## Lemmas on local mutations -/

theorem find_Invalidate (c : StatCache) (scope : String) (n : Name) :
    (c.Invalidate scope n).find scope n = none := by
  simp only [StatCache.find, StatCache.Invalidate, List.find?_eq_none, List.mem_filter]
  intro e he
  simpa using he.2

theorem find_Insert_cases (c : StatCache) (e : StatCacheEntry) :
    (c.Insert e).find e.scope e.name = some e ∨ (c.Insert e).find e.scope e.name = none := by
  rcases Nat.eq_zero_or_pos c.capacity with h0 | hpos
  · right
    simp [StatCache.find, StatCache.Insert, h0]
  · left
    exact find_Insert c e hpos

/-- A stat goes to the bucket, or to an entry that agrees with the bucket,
when the entry of the name, if any, has expired or agrees with the bucket. -/
theorem Stat_fresh (s : FS) (n : Name)
    (h : ∀ e, s.statCache.find s.scope n = some e →
      (s.now - e.inserted > s.statTTL ∨ e.record = s.bucket.StatObject n)) :
    (s.Stat n).1 = s.bucket.StatObject n := by
  cases hf : s.statCache.find s.scope n with
  | none => rw [Stat_of_absent s n hf]; rfl
  | some e =>
    by_cases hexp : s.now - e.inserted > s.statTTL
    · rw [Stat_expired s n e hf hexp]
      rfl
    · rw [Stat_hit s n e hf hexp]
      rcases h e hf with h1 | h1
      · exact absurd h1 hexp
      · exact h1

/-- A stat right after the insertion of what the bucket holds reports it. -/
theorem Stat_after_Insert (s : FS) (n : Name) (r : Option gcs.MinObject)
    (hr : s.bucket.StatObject n = r) :
    (({ s with statCache := s.statCache.Insert ⟨s.scope, n, r, s.now⟩ } : FS).Stat n).1 = r := by
  rw [Stat_fresh]
  · exact hr
  · intro e he
    right
    rcases find_Insert_cases s.statCache ⟨s.scope, n, r, s.now⟩ with h | h
    · have he2 : some e = some (⟨s.scope, n, r, s.now⟩ : StatCacheEntry) := by
        rw [← he, ← h]
      rw [Option.some.inj he2]
      exact hr.symm
    · have he3 : (s.statCache.Insert ⟨s.scope, n, r, s.now⟩).find s.scope n = some e := he
      rw [h] at he3
      exact absurd he3 (by simp)

/-- The type cache plays no part in the content-level stat. -/
theorem Stat_setType (s : FS) (p : List String) (t : ChildType) (n : Name) :
    ((s.setType p t).Stat n).1 = (s.Stat n).1 := by
  unfold FS.Stat FS.setType
  simp only
  split
  · split <;> rfl
  · rfl

theorem liveType_setType (s : FS) (p : List String) (t : ChildType) :
    (s.setType p t).liveType p = some t := by
  simp [FS.liveType, FS.setType]

theorem Stat_createLocal (s : FS) (n : Name) (contents : Bytes) (symlink : Bool) :
    ((s.createLocal n contents symlink).Stat n).1 =
      some (Bucket.record n ⟨s.bucket.nextGeneration, contents, kindOf n symlink, s.now⟩) := by
  unfold FS.createLocal
  rw [Stat_setType]
  exact Stat_after_Insert { s with bucket := s.bucket.CreateObject n contents symlink s.now } n _
    (StatObject_CreateObject s.bucket n contents symlink s.now)

theorem lookUp_createLocal (s : FS) (n : Name) (contents : Bytes) (symlink : Bool) :
    ((s.createLocal n contents symlink).lookUp n.path false).1 =
      some (Bucket.record n ⟨s.bucket.nextGeneration, contents, kindOf n symlink, s.now⟩) := by
  have hlive : (s.createLocal n contents symlink).liveType n.path =
      some (typeOf (Bucket.record n
        ⟨s.bucket.nextGeneration, contents, kindOf n symlink, s.now⟩)) := by
    unfold FS.createLocal
    exact liveType_setType _ _ _
  have hstat := Stat_createLocal s n contents symlink
  cases n with
  | mk p dir =>
    cases dir <;> cases symlink <;>
      simp only [FS.lookUp, hlive, typeOf, Bucket.record, kindOf, Bool.false_eq_true, if_false,
        if_true] <;> exact hstat

theorem Stat_deleteLocal (s : FS) (n : Name) : ((s.deleteLocal n).Stat n).1 = none := by
  have hfind : (s.deleteLocal n).statCache.find (s.deleteLocal n).scope n = none :=
    find_Invalidate s.statCache s.scope n
  rw [Stat_of_absent _ n hfind]
  simp [FS.refresh, FS.deleteLocal, FS.eraseType, FS.Invalidate, Bucket.StatObject, Bucket.get,
    Bucket.DeleteObject]

theorem renameFolder_ok_inv (s : FS) (src dst : List String) (h : (s.renameFolder src dst).1 = none) :
    s.bucket.get ⟨src, true⟩ ≠ none ∧ s.bucket.destinationFree dst = true ∧ src ≠ dst := by
  unfold FS.renameFolder at h
  by_cases h1 : s.bucket.get ⟨src, true⟩ = none
  · rw [if_pos h1] at h
    simp at h
  · rw [if_neg h1] at h
    cases h2 : s.bucket.destinationFree dst with
    | false =>
      rw [h2] at h
      simp at h
    | true =>
      rw [h2] at h
      by_cases h3 : src = dst
      · simp [h3] at h
      · exact ⟨h1, rfl, h3⟩

/-! ## The staleness window at an example -/

/-- C11 at `Demo.cached`: `foo` is overwritten remotely, then stat'ed at once,
after ten minutes and a millisecond later. -/
theorem Stat_staleness_window_witness :
    ∃ e, (Demo.cached.Stat ⟨["foo"], false⟩).2.statCache.find Demo.cached.scope ⟨["foo"], false⟩ =
        some e ∧
      e.record = (Demo.cached.Stat ⟨["foo"], false⟩).1 ∧
      (Demo.cached.statCache.find Demo.cached.scope ⟨["foo"], false⟩ = none →
        e.inserted = Demo.cached.now) ∧
      ∀ tr ∈ (FS.statsAfter
          { (Demo.cached.Stat ⟨["foo"], false⟩).2 with bucket := Demo.overwritten }
          ⟨["foo"], false⟩ [0, Demo.ttl, 1]).1,
        (tr.1 - e.inserted ≤ Demo.cached.statTTL →
            tr.2 = (Demo.cached.Stat ⟨["foo"], false⟩).1) ∧
          (Demo.cached.statTTL < tr.1 - e.inserted →
            tr.2 = Demo.overwritten.StatObject ⟨["foo"], false⟩) :=
  Stat_staleness_window Demo.cached ⟨["foo"], false⟩ Demo.overwritten [0, Demo.ttl, 1] (by decide)

/-! ## Lemmas on name resolution -/

theorem find?_take_some {α : Type} (q : α → Bool) (a : α) :
    ∀ (l : List α) (k : Nat), (l.take k).find? q = some a → l.find? q = some a := by
  intro l
  induction l with
  | nil =>
    intro k h
    simp at h
  | cons x xs ih =>
    intro k h
    cases k with
    | zero => simp at h
    | succ k =>
      rw [List.take_succ_cons] at h
      by_cases hx : q x = true
      · rw [List.find?_cons_of_pos _ hx] at h ⊢
        exact h
      · rw [List.find?_cons_of_neg _ hx] at h ⊢
        exact ih k h

theorem find?_filter_other (c : StatCache) (scope : String) (n m : Name) (hmn : m ≠ n) :
    (c.entries.filter fun e => !(StatCacheEntry.keyed scope n e)).find?
        (StatCacheEntry.keyed scope m) =
      c.entries.find? (StatCacheEntry.keyed scope m) := by
  rw [List.find?_filter]
  congr 1
  funext e
  by_cases hk : StatCacheEntry.keyed scope m e = true
  · have hnot : StatCacheEntry.keyed scope n e = false := by
      simp only [StatCacheEntry.keyed, Bool.and_eq_true, beq_iff_eq] at hk
      simp only [StatCacheEntry.keyed, Bool.and_eq_false_iff, beq_eq_false_iff_ne]
      right
      rw [hk.2]
      exact hmn
    simp [hk, hnot]
  · simp [hk]

/-- What a stat of `n` leaves as the entry of another name was that name's
entry before. -/
theorem find_after_Stat_other (s : FS) (n m : Name) (hmn : m ≠ n) (e1 : StatCacheEntry)
    (h : (s.Stat n).2.statCache.find s.scope m = some e1) :
    s.statCache.find s.scope m = some e1 := by
  have hins : ∀ r, (s.statCache.Insert ⟨s.scope, n, r, s.now⟩).find s.scope m = some e1 →
      s.statCache.find s.scope m = some e1 := by
    intro r hr
    simp only [StatCache.find, StatCache.Insert, StatCache.Invalidate] at hr
    have h2 := find?_take_some _ _ _ _ hr
    have hhead : StatCacheEntry.keyed s.scope m ⟨s.scope, n, r, s.now⟩ = false := by
      simp only [StatCacheEntry.keyed, Bool.and_eq_false_iff, beq_eq_false_iff_ne]
      right
      exact fun h => hmn h.symm
    rw [List.find?_cons_of_neg _ (by simp [hhead])] at h2
    rw [find?_filter_other s.statCache s.scope n m hmn] at h2
    exact h2
  cases hf : s.statCache.find s.scope n with
  | none =>
    rw [Stat_of_absent s n hf] at h
    exact hins _ h
  | some e =>
    obtain ⟨hes, hen⟩ := keyed_of_find _ _ _ _ hf
    by_cases hexp : s.now - e.inserted > s.statTTL
    · rw [Stat_expired s n e hf hexp] at h
      exact hins _ h
    · rw [Stat_hit s n e hf hexp] at h
      simp only [StatCache.find, StatCache.touch, StatCache.Invalidate] at h
      have hhead : StatCacheEntry.keyed s.scope m e = false := by
        simp only [StatCacheEntry.keyed, Bool.and_eq_false_iff, beq_eq_false_iff_ne]
        right
        rw [hen]
        exact fun h => hmn h.symm
      rw [List.find?_cons_of_neg _ (by simp [hhead]), hes, hen,
        find?_filter_other s.statCache s.scope n m hmn] at h
      exact h

/-- After a stat that went to the bucket or to an agreeing entry, the entry of
the name, if any, agrees with the bucket. -/
theorem coherent_after_Stat (s : FS) (n : Name)
    (hfresh : ∀ e, s.statCache.find s.scope n = some e →
      (s.now - e.inserted > s.statTTL ∨ e.record = s.bucket.StatObject n))
    (e1 : StatCacheEntry) (h : (s.Stat n).2.statCache.find s.scope n = some e1) :
    e1.record = s.bucket.StatObject n := by
  have hins : (s.statCache.Insert ⟨s.scope, n, s.bucket.StatObject n, s.now⟩).find s.scope n =
      some e1 → e1.record = s.bucket.StatObject n := by
    intro hr
    rcases find_Insert_cases s.statCache ⟨s.scope, n, s.bucket.StatObject n, s.now⟩ with h1 | h1
    · have he2 : some e1 =
          some (⟨s.scope, n, s.bucket.StatObject n, s.now⟩ : StatCacheEntry) := by
        rw [← hr, ← h1]
      rw [Option.some.inj he2]
    · have hr2 : (s.statCache.Insert ⟨s.scope, n, s.bucket.StatObject n, s.now⟩).find
          s.scope n = some e1 := hr
      rw [h1] at hr2
      exact absurd hr2 (by simp)
  cases hf : s.statCache.find s.scope n with
  | none =>
    rw [Stat_of_absent s n hf] at h
    exact hins h
  | some e =>
    obtain ⟨hes, hen⟩ := keyed_of_find _ _ _ _ hf
    by_cases hexp : s.now - e.inserted > s.statTTL
    · rw [Stat_expired s n e hf hexp] at h
      exact hins h
    · rw [Stat_hit s n e hf hexp] at h
      have hfind : (s.statCache.touch e).find s.scope n = some e := by
        have := find_touch s.statCache e
        rw [hes, hen] at this
        exact this
      have he2 : some e1 = some e := by
        rw [← h, ← hfind]
      rw [Option.some.inj he2]
      rcases hfresh e hf with h1 | h1
      · exact absurd h1 hexp
      · exact h1

theorem find_after_Insert_other (c : StatCache) (scope : String) (n m : Name) (hmn : m ≠ n)
    (r : Option gcs.MinObject) (t : Nat) (e1 : StatCacheEntry)
    (h : (c.Insert ⟨scope, n, r, t⟩).find scope m = some e1) : c.find scope m = some e1 := by
  simp only [StatCache.find, StatCache.Insert, StatCache.Invalidate] at h
  have h2 := find?_take_some _ _ _ _ h
  have hhead : StatCacheEntry.keyed scope m ⟨scope, n, r, t⟩ = false := by
    simp only [StatCacheEntry.keyed, Bool.and_eq_false_iff, beq_eq_false_iff_ne]
    right
    exact fun h => hmn h.symm
  rw [List.find?_cons_of_neg _ (by simp [hhead])] at h2
  rw [find?_filter_other c scope n m hmn] at h2
  exact h2

/-- Without a live type-cache mapping the stat of a path reports the
directory `p/` when the content-level stat finds it, and else what the
content-level stat of the file `p` finds. -/
theorem lookUp_unresolved (s : FS) (p : List String) (h : s.liveType p = none) :
    (s.lookUp p false).1 =
      ((s.Stat ⟨p, true⟩).1).or (((s.Stat ⟨p, true⟩).2.Stat ⟨p, false⟩).1) := by
  unfold FS.lookUp
  rw [h]
  cases hd : (s.Stat ⟨p, true⟩).1 <;> cases hf : ((s.Stat ⟨p, true⟩).2.Stat ⟨p, false⟩).1 <;>
    simp

theorem find_none_after_Stat_other (s : FS) (n m : Name) (hmn : m ≠ n)
    (h : s.statCache.find s.scope m = none) :
    (s.Stat n).2.statCache.find (s.Stat n).2.scope m = none := by
  have hscope : (s.Stat n).2.scope = s.scope := by rw [(Stat_frame s n).1]
  rw [hscope]
  cases hf : (s.Stat n).2.statCache.find s.scope m with
  | none => rfl
  | some e1 =>
    rw [find_after_Stat_other s n m hmn e1 hf] at h
    exact absurd h (by simp)

/-- The stat of a name of which the bucket holds no object and the stat cache
no record reports not-found. -/
theorem Stat_of_nothing (s : FS) (m : Name) (hb : s.bucket.get m = none)
    (hc : ∀ e, s.statCache.find s.scope m = some e → e.record = none) :
    (s.Stat m).1 = none := by
  have hstat : s.bucket.StatObject m = none := by
    unfold Bucket.StatObject
    rw [hb]
    rfl
  rw [Stat_fresh, hstat]
  intro e he
  right
  rw [hstat]
  exact hc e he

/-- The same after the stat of another name. -/
theorem Stat_of_nothing_after_Stat (s : FS) (n m : Name) (hmn : m ≠ n)
    (hb : s.bucket.get m = none)
    (hc : ∀ e, s.statCache.find s.scope m = some e → e.record = none) :
    ((s.Stat n).2.Stat m).1 = none := by
  obtain ⟨hframe, _⟩ := Stat_frame s n
  have hscope : (s.Stat n).2.scope = s.scope := by rw [hframe]
  have hbucket : (s.Stat n).2.bucket = s.bucket := by rw [hframe]
  apply Stat_of_nothing
  · rw [hbucket]
    exact hb
  · intro e he
    rw [hscope] at he
    exact hc e (find_after_Stat_other s n m hmn e he)

/-- Without a live type-cache mapping and without stat-cache entries for the
directory `q/` and the file `q`, the stat of the path `q` reports what the
bucket holds: the directory, and else the file. -/
theorem lookUp_of_uncached (s : FS) (q : List String) (hl : s.liveType q = none)
    (hd : s.statCache.find s.scope ⟨q, true⟩ = none)
    (hf : s.statCache.find s.scope ⟨q, false⟩ = none) :
    (s.lookUp q false).1 =
      (s.bucket.StatObject ⟨q, true⟩).or (s.bucket.StatObject ⟨q, false⟩) := by
  obtain ⟨hframe, _⟩ := Stat_frame s ⟨q, true⟩
  have hbucket : (s.Stat ⟨q, true⟩).2.bucket = s.bucket := by rw [hframe]
  have hne : (⟨q, false⟩ : Name) ≠ ⟨q, true⟩ := by simp
  have hD : (s.Stat ⟨q, true⟩).1 = s.bucket.StatObject ⟨q, true⟩ := by
    rw [Stat_of_absent s _ hd]
    rfl
  have hF : ((s.Stat ⟨q, true⟩).2.Stat ⟨q, false⟩).1 = s.bucket.StatObject ⟨q, false⟩ := by
    rw [Stat_of_absent _ _ (find_none_after_Stat_other s ⟨q, true⟩ ⟨q, false⟩ hne hf)]
    show (s.Stat ⟨q, true⟩).2.bucket.StatObject ⟨q, false⟩ = _
    rw [hbucket]
  rw [lookUp_unresolved s q hl, hD, hF]

/-! ## Lemmas on the stat of a path after a delete -/

theorem get_DeleteObject_other (b : Bucket) (n m : Name) (hmn : m ≠ n) :
    (b.DeleteObject n).get m = b.get m := by
  unfold Bucket.get Bucket.DeleteObject
  simp only
  rw [List.find?_filter]
  congr 2
  funext e
  by_cases hem : e.1 = m
  · have hen : e.1 ≠ n := by
      rw [hem]
      exact hmn
    simp [hem, hen, hmn]
  · simp [hem]

theorem liveType_deleteLocal (s : FS) (n : Name) : (s.deleteLocal n).liveType n.path = none := by
  have hfind : ((s.deleteLocal n).typeCache.find? fun e => e.path == n.path) = none := by
    rw [List.find?_eq_none]
    intro e he
    simp only [FS.deleteLocal, FS.eraseType, FS.Invalidate, List.mem_filter] at he
    simpa using he.2
  unfold FS.liveType
  rw [hfind]

/-- The entry of another name is not touched by a delete. -/
theorem find_deleteLocal_other (s : FS) (n m : Name) (hmn : m ≠ n) :
    (s.deleteLocal n).statCache.find (s.deleteLocal n).scope m = s.statCache.find s.scope m :=
  find?_filter_other s.statCache s.scope n m hmn

theorem get_deleteLocal_other (s : FS) (n m : Name) (hmn : m ≠ n) :
    (s.deleteLocal n).bucket.get m = s.bucket.get m :=
  get_DeleteObject_other s.bucket n m hmn

/-- Right after a directory is removed through the file system, the stat of
its path reports what the content-level stat of the file of that name
reports: the directory is not what is found. -/
theorem lookUp_rmdir (s : FS) (p : List String) :
    ((s.rmdir p).lookUp p false).1 = (((s.rmdir p).Stat ⟨p, true⟩).2.Stat ⟨p, false⟩).1 := by
  have hl : (s.rmdir p).liveType p = none := liveType_deleteLocal s ⟨p, true⟩
  have hd : ((s.rmdir p).Stat ⟨p, true⟩).1 = none := Stat_deleteLocal s ⟨p, true⟩
  rw [lookUp_unresolved _ p hl, hd]
  rfl

/-- Right after a file is unlinked through the file system, the stat of its
path reports what the content-level stat of the directory of that name
reports: the file is not what is found. -/
theorem lookUp_unlink (s : FS) (p : List String) :
    ((s.unlink p).lookUp p false).1 = ((s.unlink p).Stat ⟨p, true⟩).1 := by
  have hl : (s.unlink p).liveType p = none := liveType_deleteLocal s ⟨p, false⟩
  have hne : (⟨p, false⟩ : Name) ≠ ⟨p, true⟩ := by simp
  have hfind : (s.unlink p).statCache.find (s.unlink p).scope ⟨p, false⟩ = none :=
    find_Invalidate s.statCache s.scope ⟨p, false⟩
  have hf : (((s.unlink p).Stat ⟨p, true⟩).2.Stat ⟨p, false⟩).1 = none := by
    apply Stat_of_nothing_after_Stat _ _ _ hne
    · simp [FS.unlink, FS.deleteLocal, FS.eraseType, FS.Invalidate, Bucket.get,
        Bucket.DeleteObject]
    · intro e he
      rw [hfind] at he
      exact absurd he (by simp)
  rw [lookUp_unresolved _ p hl, hf]
  simp

/-- Right after a delete through the file system the stat of the path reports
not-found, when neither the bucket nor the stat cache holds a record under
the other name of that path. -/
theorem lookUp_deleteLocal (s : FS) (n : Name)
    (hb : s.bucket.get ⟨n.path, !n.dir⟩ = none)
    (hc : ∀ e, s.statCache.find s.scope ⟨n.path, !n.dir⟩ = some e → e.record = none) :
    ((s.deleteLocal n).lookUp n.path false).1 = none := by
  cases n with
  | mk p dir =>
    cases dir with
    | true =>
      have hne : (⟨p, false⟩ : Name) ≠ ⟨p, true⟩ := by simp
      have h1 := lookUp_rmdir s p
      unfold FS.rmdir at h1
      rw [h1]
      apply Stat_of_nothing_after_Stat _ _ _ hne
      · rw [get_deleteLocal_other s _ _ hne]
        exact hb
      · intro e he
        rw [find_deleteLocal_other s _ _ hne] at he
        exact hc e he
    | false =>
      have hne : (⟨p, true⟩ : Name) ≠ ⟨p, false⟩ := by simp
      have h1 := lookUp_unlink s p
      unfold FS.unlink at h1
      rw [h1]
      apply Stat_of_nothing
      · rw [get_deleteLocal_other s _ _ hne]
        exact hb
      · intro e he
        rw [find_deleteLocal_other s _ _ hne] at he
        exact hc e he

/-! ## Lemmas on the stat of a path after a folder rename -/

theorem find_after_renameFolder (s : FS) (src dst : List String) (n : Name)
    (hsrc : s.bucket.get ⟨src, true⟩ ≠ none)
    (hdst : s.bucket.destinationFree dst = true) (hne : src ≠ dst)
    (hn : src <+: n.path ∨ dst <+: n.path) :
    (s.renameFolder src dst).2.statCache.find (s.renameFolder src dst).2.scope n = none := by
  rw [renameFolder_ok s src dst hsrc hdst hne]
  simp only [StatCache.find, List.find?_eq_none]
  intro e he
  simp only [List.mem_filter] at he
  intro hk
  simp only [StatCacheEntry.keyed, Bool.and_eq_true, beq_iff_eq] at hk
  have h2 := he.2
  simp only [hk.1, hk.2, beq_self_eq_true, Bool.true_and, Bool.not_eq_true', Bool.or_eq_false_iff,
    decide_eq_false_iff_not] at h2
  rcases hn with h | h
  · exact h2.1 h
  · exact h2.2 h

theorem liveType_after_renameFolder (s : FS) (src dst q : List String)
    (hsrc : s.bucket.get ⟨src, true⟩ ≠ none)
    (hdst : s.bucket.destinationFree dst = true) (hne : src ≠ dst)
    (hq : src <+: q ∨ dst <+: q) :
    (s.renameFolder src dst).2.liveType q = none := by
  have hfind : ((s.renameFolder src dst).2.typeCache.find? fun e => e.path == q) = none := by
    rw [renameFolder_ok s src dst hsrc hdst hne, List.find?_eq_none]
    intro e he
    simp only [List.mem_filter, Bool.not_eq_true', Bool.or_eq_false_iff,
      decide_eq_false_iff_not] at he
    intro hk
    have hp : e.path = q := by simpa using hk
    rw [hp] at he
    rcases hq with h | h
    · exact he.2.1 h
    · exact he.2.2 h
  unfold FS.liveType
  rw [hfind]

/-- Right after a folder rename that passed the preconditions, the stat of a
path at or under the old or the new path reports what the bucket holds after
the rename: the directory of that path, and else the file. -/
theorem lookUp_after_renameFolder (s : FS) (src dst q : List String)
    (hsrc : s.bucket.get ⟨src, true⟩ ≠ none)
    (hdst : s.bucket.destinationFree dst = true) (hne : src ≠ dst)
    (hq : src <+: q ∨ dst <+: q) :
    ((s.renameFolder src dst).2.lookUp q false).1 =
      ((s.renameFolder src dst).2.bucket.StatObject ⟨q, true⟩).or
        ((s.renameFolder src dst).2.bucket.StatObject ⟨q, false⟩) :=
  lookUp_of_uncached _ q (liveType_after_renameFolder s src dst q hsrc hdst hne hq)
    (find_after_renameFolder s src dst ⟨q, true⟩ hsrc hdst hne hq)
    (find_after_renameFolder s src dst ⟨q, false⟩ hsrc hdst hne hq)

theorem bucket_after_renameFolder (s : FS) (src dst : List String)
    (hns : s.bucket.hierarchical = true)
    (hsrc : s.bucket.get ⟨src, true⟩ ≠ none)
    (hdst : s.bucket.destinationFree dst = true) (hne : src ≠ dst) :
    (s.renameFolder src dst).2.bucket = s.bucket.RenameHierarchical src dst := by
  rw [renameFolder_ok s src dst hsrc hdst hne]
  simp [hns]

/-- The destination of a rename that passes the preconditions is not the
source or a path above it. -/
theorem dst_not_above_src (b : Bucket) (src dst : List String)
    (hsrc : b.get ⟨src, true⟩ ≠ none)
    (hdst : b.destinationFree dst = true) (hne : src ≠ dst) : ¬ dst <+: src := by
  intro hpre
  obtain ⟨o, ho⟩ := get_ne_none_mem b _ hsrc
  have := (destinationFree_iff b dst).mp hdst (⟨src, true⟩, o) ho hpre
  simp only [Name.mk.injEq, and_true] at this
  exact hne this

/-- The hierarchical rename leaves no object under a name that is not at or
under the destination, unless the name is outside the source subtree, where
it leaves what there was. -/
theorem get_RenameHierarchical_other (b : Bucket) (src dst : List String) (n : Name)
    (hd : ¬ dst <+: n.path) :
    (b.RenameHierarchical src dst).get n =
      if underFolder src n then none else b.get n := by
  have hsecond : ((b.objects.filter fun e => underFolder src e.1).map fun e =>
      (rekey src dst e.1, e.2)).find? (fun e => e.1 == n) = none := by
    rw [List.find?_eq_none]
    intro x hx hk
    simp only [List.mem_map] at hx
    obtain ⟨e, _, hex⟩ := hx
    have hxn : x.1 = n := by simpa using hk
    apply hd
    rw [← hxn, ← hex]
    exact List.prefix_append _ _
  have hnd : n ≠ ⟨dst, true⟩ := by
    intro h
    apply hd
    rw [h]
  have hfirst : (b.objects.find? fun a =>
      decide ((!(underFolder src a.1) && !(a.1 == (⟨dst, true⟩ : Name))) = true ∧
        (a.1 == n) = true)) =
      if underFolder src n then none else b.objects.find? fun e => e.1 == n := by
    cases hu : underFolder src n with
    | true =>
      simp only [if_true]
      rw [List.find?_eq_none]
      intro e _ hk
      simp only [Bool.and_eq_true, Bool.not_eq_true', beq_iff_eq, decide_eq_true_eq] at hk
      rw [hk.2, hu] at hk
      exact absurd hk.1.1 (by simp)
    | false =>
      simp only [Bool.false_eq_true, if_false]
      congr 1
      funext e
      by_cases hen : e.1 = n
      · simp [hen, hu, hnd]
      · simp [hen]
  simp only [Bucket.get, Bucket.RenameHierarchical, List.find?_append, hsecond, Option.or_none,
    List.find?_filter]
  rw [hfirst]
  split <;> rfl

/-- Right after the hierarchical rename of a folder the stat of the source
path does not find the folder: it reports what the bucket holds as the file
of that name, which is no part of the folder. -/
theorem lookUp_src_after_renameFolder (s : FS) (src dst : List String)
    (hns : s.bucket.hierarchical = true)
    (hsrc : s.bucket.get ⟨src, true⟩ ≠ none)
    (hdst : s.bucket.destinationFree dst = true) (hne : src ≠ dst) :
    ((s.renameFolder src dst).2.lookUp src false).1 = s.bucket.StatObject ⟨src, false⟩ := by
  have hnd := dst_not_above_src s.bucket src dst hsrc hdst hne
  rw [lookUp_after_renameFolder s src dst src hsrc hdst hne (Or.inl (List.prefix_refl _)),
    bucket_after_renameFolder s src dst hns hsrc hdst hne]
  unfold Bucket.StatObject
  rw [get_RenameHierarchical_src s.bucket src dst hsrc hdst hne,
    get_RenameHierarchical_other s.bucket src dst ⟨src, false⟩ hnd]
  simp [underFolder]

/-- Right after the hierarchical rename of a folder the stat of the
destination path reports the folder object that was the source. -/
theorem lookUp_dst_after_renameFolder (s : FS) (src dst : List String)
    (hns : s.bucket.hierarchical = true)
    (hsrc : s.bucket.get ⟨src, true⟩ ≠ none)
    (hdst : s.bucket.destinationFree dst = true) (hne : src ≠ dst) :
    ((s.renameFolder src dst).2.lookUp dst false).1 =
      (s.bucket.get ⟨src, true⟩).map (Bucket.record ⟨dst, true⟩) := by
  have hroot : underFolder src ⟨src, true⟩ = true := by
    rw [underFolder_iff]
    exact ⟨List.prefix_refl _, Or.inl rfl⟩
  have hkey : rekey src dst ⟨src, true⟩ = ⟨dst, true⟩ := by
    simp [rekey]
  have hget := get_RenameHierarchical_moved s.bucket src dst ⟨src, true⟩ hdst hroot
  rw [hkey] at hget
  rw [lookUp_after_renameFolder s src dst dst hsrc hdst hne (Or.inr (List.prefix_refl _)),
    bucket_after_renameFolder s src dst hns hsrc hdst hne]
  unfold Bucket.StatObject
  rw [hget]
  cases hg : s.bucket.get ⟨src, true⟩ with
  | none => exact absurd hg hsrc
  | some o => simp

/-- C13. Whatever the state, the TTLs, the cache contents and the entry
budget, and with no clock advance. Create: right after a create or overwrite
through the file system the stat of the object and the stat of its path report
the new record. Delete: right after a delete the stat of the object reports
not-found, and the stat of the path does not find what was deleted: after a
directory is removed it reports what the content-level stat of the file of
that name reports, after a file is unlinked what the content-level stat of the
directory of that name reports, and not-found when neither the bucket nor the
stat cache holds a record under that other name. Rename: right after a
successful folder rename the stat of every name, and of every path, at or
under the old or the new path reports what the bucket holds after the rename
(for a path the directory, and else the file); on a hierarchical bucket the
stat of the old path reports only what the bucket holds as a file of that
name, and the stat of the new path reports the folder that was renamed. In
particular, after a directory `p` is created, removed and created again as a
file, the stat of `p` reports a regular file of the size of the new
contents. -/
theorem local_mutation_is_visible (s : FS) :
    (∀ n contents symlink,
        ((s.createLocal n contents symlink).Stat n).1 =
            some (Bucket.record n ⟨s.bucket.nextGeneration, contents, kindOf n symlink, s.now⟩) ∧
          ((s.createLocal n contents symlink).lookUp n.path false).1 =
            some (Bucket.record n ⟨s.bucket.nextGeneration, contents, kindOf n symlink, s.now⟩)) ∧
      (∀ n, ((s.deleteLocal n).Stat n).1 = none) ∧
      (∀ p,
        ((s.rmdir p).lookUp p false).1 = (((s.rmdir p).Stat ⟨p, true⟩).2.Stat ⟨p, false⟩).1 ∧
          ((s.unlink p).lookUp p false).1 = ((s.unlink p).Stat ⟨p, true⟩).1) ∧
      (∀ n, s.bucket.get ⟨n.path, !n.dir⟩ = none →
        (∀ e, s.statCache.find s.scope ⟨n.path, !n.dir⟩ = some e → e.record = none) →
        ((s.deleteLocal n).lookUp n.path false).1 = none) ∧
      (∀ src dst n, (s.renameFolder src dst).1 = none → (src <+: n.path ∨ dst <+: n.path) →
        ((s.renameFolder src dst).2.Stat n).1 = (s.renameFolder src dst).2.bucket.StatObject n) ∧
      (∀ src dst q, (s.renameFolder src dst).1 = none → (src <+: q ∨ dst <+: q) →
        ((s.renameFolder src dst).2.lookUp q false).1 =
          ((s.renameFolder src dst).2.bucket.StatObject ⟨q, true⟩).or
            ((s.renameFolder src dst).2.bucket.StatObject ⟨q, false⟩)) ∧
      (∀ src dst, s.bucket.hierarchical = true → (s.renameFolder src dst).1 = none →
        ((s.renameFolder src dst).2.lookUp src false).1 = s.bucket.StatObject ⟨src, false⟩ ∧
          ((s.renameFolder src dst).2.lookUp dst false).1 =
            (s.bucket.get ⟨src, true⟩).map (Bucket.record ⟨dst, true⟩) ∧
          ((s.renameFolder src dst).2.lookUp dst false).1 ≠ none) ∧
      (∀ p contents, ∃ r,
        ((((s.mkdir p).rmdir p).writeFile p contents).lookUp p false).1 = some r ∧
          r.Kind = gcs.ObjectKind.regular ∧ r.Size = contents.length) := by
  refine ⟨fun n contents symlink =>
      ⟨Stat_createLocal s n contents symlink, lookUp_createLocal s n contents symlink⟩,
    fun n => Stat_deleteLocal s n, fun p => ⟨lookUp_rmdir s p, lookUp_unlink s p⟩,
    fun n hb hc => lookUp_deleteLocal s n hb hc, ?_, ?_, ?_, ?_⟩
  · intro src dst n hok hn
    obtain ⟨h1, h2, h3⟩ := renameFolder_ok_inv s src dst hok
    exact Stat_after_renameFolder s src dst n h1 h2 h3 hn
  · intro src dst q hok hq
    obtain ⟨h1, h2, h3⟩ := renameFolder_ok_inv s src dst hok
    exact lookUp_after_renameFolder s src dst q h1 h2 h3 hq
  · intro src dst hns hok
    obtain ⟨h1, h2, h3⟩ := renameFolder_ok_inv s src dst hok
    refine ⟨lookUp_src_after_renameFolder s src dst hns h1 h2 h3,
      lookUp_dst_after_renameFolder s src dst hns h1 h2 h3, ?_⟩
    rw [lookUp_dst_after_renameFolder s src dst hns h1 h2 h3]
    cases hg : s.bucket.get ⟨src, true⟩ with
    | none => exact absurd hg h1
    | some o => simp
  · intro p contents
    exact ⟨_, lookUp_createLocal ((s.mkdir p).rmdir p) ⟨p, false⟩ contents false, rfl, rfl⟩

/-- C13 at examples. On `Demo.mount` the directory `test` is created, removed
and created again as the file `taco`: the stat of `test` reports a regular
file of 4 bytes. On `Demo.mount` the directory `test` is created and removed:
the stat of `test` reports not-found. On `Demo.tree` the folder `foo` is
renamed to `foo_rename`: the stat of `foo` reports not-found, as `Demo.tree`
holds no file `foo`, and the stat of `foo_rename` reports the folder. -/
theorem local_mutation_is_visible_witness :
    (∃ r, ((((Demo.mount.mkdir ["test"]).rmdir ["test"]).writeFile ["test"] Demo.taco).lookUp
        ["test"] false).1 = some r ∧
      r.Kind = gcs.ObjectKind.regular ∧ r.Size = Demo.taco.length) ∧
      (((Demo.mount.mkdir ["test"]).deleteLocal ⟨["test"], true⟩).lookUp ["test"] false).1 =
        none ∧
      Demo.tree.bucket.StatObject ⟨["foo"], false⟩ = none ∧
      ((Demo.tree.renameFolder ["foo"] ["foo_rename"]).2.lookUp ["foo"] false).1 =
        Demo.tree.bucket.StatObject ⟨["foo"], false⟩ ∧
      ((Demo.tree.renameFolder ["foo"] ["foo_rename"]).2.lookUp ["foo_rename"] false).1 =
        (Demo.tree.bucket.get ⟨["foo"], true⟩).map (Bucket.record ⟨["foo_rename"], true⟩) ∧
      ((Demo.tree.renameFolder ["foo"] ["foo_rename"]).2.lookUp ["foo_rename"] false).1 ≠ none :=
  ⟨(local_mutation_is_visible Demo.mount).2.2.2.2.2.2.2 ["test"] Demo.taco,
    (local_mutation_is_visible (Demo.mount.mkdir ["test"])).2.2.2.1 ⟨["test"], true⟩ (by decide)
      (fun e he => by
        have hnone : (Demo.mount.mkdir ["test"]).statCache.find (Demo.mount.mkdir ["test"]).scope
            ⟨["test"], false⟩ = none := by decide
        have he2 : (Demo.mount.mkdir ["test"]).statCache.find (Demo.mount.mkdir ["test"]).scope
            ⟨["test"], false⟩ = some e := he
        rw [hnone] at he2
        exact absurd he2 (by simp)),
    by decide,
    (local_mutation_is_visible Demo.tree).2.2.2.2.2.2.1 ["foo"] ["foo_rename"] (by decide)
      (by decide)⟩

/-! ## The claim on folder renames that succeed -/

/-- `TestFileChangedRemotely`: `foo` is written with `taco`, overwritten on the
remote side with `burrito`; the stat reports size 4 at once and size 7 after
the TTL and a millisecond. -/
theorem replay_TestFileChangedRemotely :
    ((Demo.cached.remoteCreate ⟨["foo"], false⟩ Demo.burrito false 0).lookUp ["foo"] false).1.map
        (fun r => r.Size) = some 4 ∧
      (((Demo.cached.remoteCreate ⟨["foo"], false⟩ Demo.burrito false 0).advance
        (Demo.ttl + 1)).lookUp ["foo"] false).1.map (fun r => r.Size) = some 7 := by
  decide

/-- `TestDirectoryRemovedRemotely`: the directory `foo` is created, its object
is deleted on the remote side; the stat reports a directory at once and
not-found after the TTL and a millisecond. -/
theorem replay_TestDirectoryRemovedRemotely :
    (((Demo.mount.mkdir ["foo"]).remoteDelete ⟨["foo"], true⟩).lookUp ["foo"] false).1.map
        (fun r => r.Kind) = some gcs.ObjectKind.directory ∧
      ((((Demo.mount.mkdir ["foo"]).remoteDelete ⟨["foo"], true⟩).advance
        (Demo.ttl + 1)).lookUp ["foo"] false).1 = none := by
  decide

/-- `TestSymlinksAreTypeCached`: the symlink `foo` is created, a directory
object `foo/` is created on the remote side; the stat reports the symlink at
once, and after the TTL and a millisecond the directory under `foo` and the
symlink under the suffixed name. -/
theorem replay_TestSymlinksAreTypeCached :
    (((Demo.mount.createLocal ⟨["foo"], false⟩ [98] true).remoteCreate ⟨["foo"], true⟩ [] false
        0).lookUp ["foo"] false).1.map (fun r => r.Kind) = some gcs.ObjectKind.symlink ∧
      ((((Demo.mount.createLocal ⟨["foo"], false⟩ [98] true).remoteCreate ⟨["foo"], true⟩ []
        false 0).advance (Demo.ttl + 1)).lookUp ["foo"] false).1.map (fun r => r.Kind) =
          some gcs.ObjectKind.directory ∧
      (((((Demo.mount.createLocal ⟨["foo"], false⟩ [98] true).remoteCreate ⟨["foo"], true⟩ []
        false 0).advance (Demo.ttl + 1)).lookUp ["foo"] false).2.lookUp ["foo"] true).1.map
          (fun r => r.Kind) = some gcs.ObjectKind.symlink := by
  decide

/-- `TestRenameFolderWithSameParent`: `foo` is renamed to `foo_rename`; then
`foo` stats as not-found and `foo_rename` as a directory. -/
theorem replay_TestRenameFolderWithSameParent :
    (Demo.tree.renameFolder ["foo"] ["foo_rename"]).1 = none ∧
      ((Demo.tree.renameFolder ["foo"] ["foo_rename"]).2.lookUp ["foo"] false).1 = none ∧
      ((Demo.tree.renameFolder ["foo"] ["foo_rename"]).2.lookUp ["foo_rename"] false).1.map
        (fun r => r.Kind) = some gcs.ObjectKind.directory := by
  decide

/-- `TestConflictingNames_RemoteModifier`: the directory `foo` is created, a
file object `foo` is created on the remote side; the stat of `foo` reports a
directory and the stat of the suffixed name not-found; after the TTL and a
millisecond the stat of `foo` reports a directory and the stat of the suffixed
name a file. -/
theorem replay_TestConflictingNames_RemoteModifier :
    (((Demo.mount.mkdir ["foo"]).remoteCreate ⟨["foo"], false⟩ Demo.taco false 0).lookUp ["foo"]
        false).1.map (fun r => r.Kind) = some gcs.ObjectKind.directory ∧
      ((((Demo.mount.mkdir ["foo"]).remoteCreate ⟨["foo"], false⟩ Demo.taco false 0).lookUp
        ["foo"] false).2.lookUp ["foo"] true).1 = none ∧
      ((((((Demo.mount.mkdir ["foo"]).remoteCreate ⟨["foo"], false⟩ Demo.taco false 0).lookUp
        ["foo"] false).2.lookUp ["foo"] true).2.advance (Demo.ttl + 1)).lookUp ["foo"]
          false).1.map (fun r => r.Kind) = some gcs.ObjectKind.directory ∧
      (((((((Demo.mount.mkdir ["foo"]).remoteCreate ⟨["foo"], false⟩ Demo.taco false 0).lookUp
        ["foo"] false).2.lookUp ["foo"] true).2.advance (Demo.ttl + 1)).lookUp ["foo"]
          false).2.lookUp ["foo"] true).1.map (fun r => r.Kind) =
        some gcs.ObjectKind.regular := by
  decide

/-- `TestTypeOfNameChanges_LocalModifier`: the directory `test` is created,
removed and created again as the file `taco`; the stat of `test` reports a
file of 4 bytes. -/
theorem replay_TestTypeOfNameChanges_LocalModifier :
    ((((Demo.mount.mkdir ["test"]).rmdir ["test"]).writeFile ["test"] Demo.taco).lookUp ["test"]
        false).1.map (fun r => (r.Kind, r.Size)) = some (gcs.ObjectKind.regular, 4) := by
  decide

/-- `TestRenameFolderWithDstDirectoryIsEmpty`: `foo` is renamed onto the empty
directory `bar`; the rename succeeds, `foo` then stats as not-found, `bar` as
a directory and `bar/file1.txt` as a file of 4 bytes. -/
theorem replay_TestRenameFolderWithDstDirectoryIsEmpty :
    (Demo.tree.renameFolder ["foo"] ["bar"]).1 = none ∧
      ((Demo.tree.renameFolder ["foo"] ["bar"]).2.lookUp ["foo"] false).1 = none ∧
      ((Demo.tree.renameFolder ["foo"] ["bar"]).2.lookUp ["bar"] false).1.map
        (fun r => r.Kind) = some gcs.ObjectKind.directory ∧
      ((Demo.tree.renameFolder ["foo"] ["bar"]).2.lookUp ["bar", "file1.txt"] false).1.map
        (fun r => (r.Kind, r.Size)) = some (gcs.ObjectKind.regular, 4) := by
  decide

/-- `TestRenameFolderWithDifferentParent`: `foo/test2` is renamed to
`bar/moved`, under another parent; `foo/test2` then stats as not-found and
`bar/moved` as a directory. -/
theorem replay_TestRenameFolderWithDifferentParent :
    (Demo.tree.renameFolder ["foo", "test2"] ["bar", "moved"]).1 = none ∧
      ((Demo.tree.renameFolder ["foo", "test2"] ["bar", "moved"]).2.lookUp ["foo", "test2"]
        false).1 = none ∧
      ((Demo.tree.renameFolder ["foo", "test2"] ["bar", "moved"]).2.lookUp ["bar", "moved"]
        false).1.map (fun r => r.Kind) = some gcs.ObjectKind.directory := by
  decide

end fs

/-! # Config file parsing -/

namespace config

open gcsx

/-! ## Lemmas on `ParseConfigFile` -/

theorem IsValidLogSeverity_eq_true (s : LogSeverity) :
    IsValidLogSeverity s = true ↔
      s = "TRACE" ∨ s = "DEBUG" ∨ s = "INFO" ∨ s = "WARNING" ∨ s = "ERROR" ∨ s = "OFF" := by
  simp [IsValidLogSeverity, TRACE, DEBUG, INFO, WARNING, ERROR, OFF]

theorem IsValidLogRotateConfig_eq_none (c : LogRotateConfig) :
    IsValidLogRotateConfig c = none ↔ 1 ≤ c.MaxFileSizeMB ∧ 1 ≤ c.FileCount := by
  unfold IsValidLogRotateConfig
  by_cases h1 : c.MaxFileSizeMB ≤ 0
  · simp only [if_pos h1]
    constructor
    · intro h
      simp at h
    · intro h
      omega
  · by_cases h2 : c.FileCount ≤ 0
    · simp only [if_neg h1, if_pos h2]
      constructor
      · intro h
        simp at h
      · intro h
        omega
    · simp only [if_neg h1, if_neg h2, true_iff]
      omega

theorem IsValidLogRotateConfig_messages (c : LogRotateConfig) (e : GoError)
    (h : IsValidLogRotateConfig c = some e) :
    e = ⟨"max-file-size-mb should be atleast 1"⟩ ∨ e = ⟨"file-count should be atleast 1"⟩ := by
  unfold IsValidLogRotateConfig at h
  by_cases h1 : c.MaxFileSizeMB ≤ 0
  · rw [if_pos h1] at h
    left
    exact (Option.some.inj h).symm
  · by_cases h2 : c.FileCount ≤ 0
    · rw [if_neg h1, if_pos h2] at h
      right
      exact (Option.some.inj h).symm
    · rw [if_neg h1, if_neg h2] at h
      simp at h

/-- `ParseConfigFile` on a file that is read and decoded without error, with
a severity that does not pass once upper-cased. -/
theorem ParseConfigFile_bad_severity {ρ : Type} (NewMountConfig : MountConfig ρ)
    (ReadFile : String → Except GoError Bytes)
    (Decode : Bytes → MountConfig ρ → MountConfig ρ × Option GoError)
    (ToUpper : String → String) (fileName : String) (buf : Bytes) (decoded : MountConfig ρ)
    (hname : fileName ≠ "") (hread : ReadFile fileName = Except.ok buf)
    (hdec : Decode buf NewMountConfig = (decoded, none))
    (hsev : IsValidLogSeverity (ToUpper decoded.LogConfig.Severity) = false) :
    ParseConfigFile NewMountConfig ReadFile Decode ToUpper fileName =
      ⟨{ decoded with
          LogConfig := { decoded.LogConfig with Severity := ToUpper decoded.LogConfig.Severity } },
        some ⟨"error parsing config file: log severity should be one of [trace, debug, info, warning, error, off]"⟩,
        [Call.ReadFile fileName, Call.Decode buf,
          Call.IsValidLogSeverity (ToUpper decoded.LogConfig.Severity)]⟩ := by
  unfold ParseConfigFile
  simp only [if_neg hname, hread, hdec, hsev, Bool.not_false, if_true]

/-- `ParseConfigFile` on a file that is read and decoded without error, with
a severity that passes once upper-cased. -/
theorem ParseConfigFile_good_severity {ρ : Type} (NewMountConfig : MountConfig ρ)
    (ReadFile : String → Except GoError Bytes)
    (Decode : Bytes → MountConfig ρ → MountConfig ρ × Option GoError)
    (ToUpper : String → String) (fileName : String) (buf : Bytes) (decoded : MountConfig ρ)
    (hname : fileName ≠ "") (hread : ReadFile fileName = Except.ok buf)
    (hdec : Decode buf NewMountConfig = (decoded, none))
    (hsev : IsValidLogSeverity (ToUpper decoded.LogConfig.Severity) = true) :
    ParseConfigFile NewMountConfig ReadFile Decode ToUpper fileName =
      ⟨{ decoded with
          LogConfig := { decoded.LogConfig with Severity := ToUpper decoded.LogConfig.Severity } },
        (IsValidLogRotateConfig decoded.LogConfig.LogRotateConfig).map
          (fun e => ⟨parseConfigFileErrMsgFormat e.msg⟩),
        [Call.ReadFile fileName, Call.Decode buf,
          Call.IsValidLogSeverity (ToUpper decoded.LogConfig.Severity),
          Call.IsValidLogRotateConfig decoded.LogConfig.LogRotateConfig]⟩ := by
  unfold ParseConfigFile
  simp only [if_neg hname, hread, hdec, hsev, Bool.not_true, Bool.false_eq_true, if_false]
  cases IsValidLogRotateConfig decoded.LogConfig.LogRotateConfig <;> rfl

/-! ## The claims on config parsing -/

/-- C21. `IsValidLogSeverity(s)` is true if and only if `s` is one of `TRACE`,
`DEBUG`, `INFO`, `WARNING`, `ERROR`, `OFF`, letter for letter; the lower-case
spellings and the empty string give false. -/
theorem IsValidLogSeverity_iff (s : LogSeverity) :
    (IsValidLogSeverity s = true ↔
        s = "TRACE" ∨ s = "DEBUG" ∨ s = "INFO" ∨ s = "WARNING" ∨ s = "ERROR" ∨ s = "OFF") ∧
      (IsValidLogSeverity s = false ↔
        s ≠ "TRACE" ∧ s ≠ "DEBUG" ∧ s ≠ "INFO" ∧ s ≠ "WARNING" ∧ s ≠ "ERROR" ∧ s ≠ "OFF") ∧
      IsValidLogSeverity "trace" = false ∧ IsValidLogSeverity "debug" = false ∧
      IsValidLogSeverity "info" = false ∧ IsValidLogSeverity "warning" = false ∧
      IsValidLogSeverity "error" = false ∧ IsValidLogSeverity "off" = false ∧
      IsValidLogSeverity "Trace" = false ∧ IsValidLogSeverity "" = false := by
  refine ⟨IsValidLogSeverity_eq_true s, ?_, by decide, by decide, by decide, by decide, by decide,
    by decide, by decide, by decide⟩
  rw [← Bool.not_eq_true, IsValidLogSeverity_eq_true]
  simp only [not_or]

/-- C22. `IsValidLogRotateConfig` returns nil if and only if
`MaxFileSizeMB ≥ 1` and `FileCount ≥ 1`; with `MaxFileSizeMB ≤ 0` the error is
"max-file-size-mb should be atleast 1" whatever `FileCount` is, and with
`MaxFileSizeMB ≥ 1` and `FileCount ≤ 0` it is "file-count should be atleast 1". -/
theorem IsValidLogRotateConfig_iff (c : LogRotateConfig) :
    (IsValidLogRotateConfig c = none ↔ 1 ≤ c.MaxFileSizeMB ∧ 1 ≤ c.FileCount) ∧
      (c.MaxFileSizeMB ≤ 0 →
        IsValidLogRotateConfig c = some ⟨"max-file-size-mb should be atleast 1"⟩) ∧
      (1 ≤ c.MaxFileSizeMB → c.FileCount ≤ 0 →
        IsValidLogRotateConfig c = some ⟨"file-count should be atleast 1"⟩) := by
  refine ⟨IsValidLogRotateConfig_eq_none c, ?_, ?_⟩
  · intro h
    unfold IsValidLogRotateConfig
    rw [if_pos h]
  · intro h1 h2
    have h3 : ¬ c.MaxFileSizeMB ≤ 0 := by omega
    unfold IsValidLogRotateConfig
    rw [if_neg h3, if_pos h2]

/-- C22 at 0 MB with 10 files, and at 512 MB with 0 files. -/
theorem IsValidLogRotateConfig_iff_witness :
    IsValidLogRotateConfig ⟨0, 10⟩ = some ⟨"max-file-size-mb should be atleast 1"⟩ ∧
      IsValidLogRotateConfig ⟨512, 0⟩ = some ⟨"file-count should be atleast 1"⟩ ∧
      IsValidLogRotateConfig ⟨512, 10⟩ = none :=
  ⟨(IsValidLogRotateConfig_iff ⟨0, 10⟩).2.1 (by decide),
    (IsValidLogRotateConfig_iff ⟨512, 0⟩).2.2 (by decide) (by decide),
    (IsValidLogRotateConfig_iff ⟨512, 10⟩).1.mpr ⟨by decide, by decide⟩⟩

/-- C23. For a config file that is read and decoded without error,
`ParseConfigFile` validates the upper-cased severity and no other: it returns
the log-severity error if and only if `strings.ToUpper` of the decoded
severity is not one of `TRACE`, `DEBUG`, `INFO`, `WARNING`, `ERROR`, `OFF`;
the config it returns carries the upper-cased severity; and when it returns a
nil error that severity is one of the six. -/
theorem ParseConfigFile_severity {ρ : Type} (NewMountConfig : MountConfig ρ)
    (ReadFile : String → Except GoError Bytes)
    (Decode : Bytes → MountConfig ρ → MountConfig ρ × Option GoError)
    (ToUpper : String → String) (fileName : String) (buf : Bytes) (decoded : MountConfig ρ)
    (hname : fileName ≠ "") (hread : ReadFile fileName = Except.ok buf)
    (hdec : Decode buf NewMountConfig = (decoded, none)) :
    ((ParseConfigFile NewMountConfig ReadFile Decode ToUpper fileName).err =
          some ⟨"error parsing config file: log severity should be one of [trace, debug, info, warning, error, off]"⟩ ↔
        IsValidLogSeverity (ToUpper decoded.LogConfig.Severity) = false) ∧
      (∀ s, Call.IsValidLogSeverity s ∈
          (ParseConfigFile NewMountConfig ReadFile Decode ToUpper fileName).calls ↔
        s = ToUpper decoded.LogConfig.Severity) ∧
      (ParseConfigFile NewMountConfig ReadFile Decode ToUpper fileName).mountConfig.LogConfig.Severity =
        ToUpper decoded.LogConfig.Severity ∧
      ((ParseConfigFile NewMountConfig ReadFile Decode ToUpper fileName).err = none →
        (ParseConfigFile NewMountConfig ReadFile Decode ToUpper
            fileName).mountConfig.LogConfig.Severity = "TRACE" ∨
          (ParseConfigFile NewMountConfig ReadFile Decode ToUpper
            fileName).mountConfig.LogConfig.Severity = "DEBUG" ∨
          (ParseConfigFile NewMountConfig ReadFile Decode ToUpper
            fileName).mountConfig.LogConfig.Severity = "INFO" ∨
          (ParseConfigFile NewMountConfig ReadFile Decode ToUpper
            fileName).mountConfig.LogConfig.Severity = "WARNING" ∨
          (ParseConfigFile NewMountConfig ReadFile Decode ToUpper
            fileName).mountConfig.LogConfig.Severity = "ERROR" ∨
          (ParseConfigFile NewMountConfig ReadFile Decode ToUpper
            fileName).mountConfig.LogConfig.Severity = "OFF") := by
  cases hsev : IsValidLogSeverity (ToUpper decoded.LogConfig.Severity) with
  | false =>
    rw [ParseConfigFile_bad_severity NewMountConfig ReadFile Decode ToUpper fileName buf decoded
      hname hread hdec hsev]
    refine ⟨by simp, ?_, rfl, ?_⟩
    · intro s
      simp
    · intro h
      simp at h
  | true =>
    rw [ParseConfigFile_good_severity NewMountConfig ReadFile Decode ToUpper fileName buf decoded
      hname hread hdec hsev]
    refine ⟨?_, ?_, rfl, ?_⟩
    · constructor
      · intro h
        exfalso
        cases hrot : IsValidLogRotateConfig decoded.LogConfig.LogRotateConfig with
        | none =>
          rw [hrot] at h
          simp at h
        | some e =>
          rw [hrot] at h
          have hsize : (⟨parseConfigFileErrMsgFormat "max-file-size-mb should be atleast 1"⟩ :
              GoError) ≠
              ⟨"error parsing config file: log severity should be one of [trace, debug, info, warning, error, off]"⟩ := by
            decide
          have hcount : (⟨parseConfigFileErrMsgFormat "file-count should be atleast 1"⟩ :
              GoError) ≠
              ⟨"error parsing config file: log severity should be one of [trace, debug, info, warning, error, off]"⟩ := by
            decide
          rcases IsValidLogRotateConfig_messages _ e hrot with he | he
          · rw [he] at h
            exact hsize (Option.some.inj h)
          · rw [he] at h
            exact hcount (Option.some.inj h)
      · intro h
        simp at h
    · intro s
      simp
    · intro _
      exact (IsValidLogSeverity_eq_true _).mp hsev

/-- C23 at `config.yaml`, whose severity decodes as `debug`. -/
theorem ParseConfigFile_severity_witness :
    (ParseConfigFile Demo.NewMountConfig Demo.ReadFile Demo.Decode Demo.ToUpper "config.yaml").err =
        none ∧
      (ParseConfigFile Demo.NewMountConfig Demo.ReadFile Demo.Decode Demo.ToUpper
        "config.yaml").mountConfig.LogConfig.Severity = "DEBUG" ∧
      (∀ s, Call.IsValidLogSeverity s ∈
          (ParseConfigFile Demo.NewMountConfig Demo.ReadFile Demo.Decode Demo.ToUpper
            "config.yaml").calls ↔
        s = Demo.ToUpper "debug") :=
  ⟨by decide, by decide,
    (ParseConfigFile_severity Demo.NewMountConfig Demo.ReadFile Demo.Decode Demo.ToUpper
      "config.yaml" [1, 2, 3] ⟨⟨"debug", ⟨512, 10⟩⟩, ()⟩ (by decide) rfl rfl).2.1⟩

/-- C24. For a config file that is read and decoded without error and whose
severity passes once upper-cased, `ParseConfigFile` returns a nil error if
and only if the decoded log-rotate settings have `MaxFileSizeMB ≥ 1` and
`FileCount ≥ 1`; otherwise it returns the error whose text is
"error parsing config file: " followed by the text of the error
`IsValidLogRotateConfig` returns. -/
theorem ParseConfigFile_log_rotate {ρ : Type} (NewMountConfig : MountConfig ρ)
    (ReadFile : String → Except GoError Bytes)
    (Decode : Bytes → MountConfig ρ → MountConfig ρ × Option GoError)
    (ToUpper : String → String) (fileName : String) (buf : Bytes) (decoded : MountConfig ρ)
    (hname : fileName ≠ "") (hread : ReadFile fileName = Except.ok buf)
    (hdec : Decode buf NewMountConfig = (decoded, none))
    (hsev : IsValidLogSeverity (ToUpper decoded.LogConfig.Severity) = true) :
    ((ParseConfigFile NewMountConfig ReadFile Decode ToUpper fileName).err = none ↔
        1 ≤ decoded.LogConfig.LogRotateConfig.MaxFileSizeMB ∧
          1 ≤ decoded.LogConfig.LogRotateConfig.FileCount) ∧
      (¬ (1 ≤ decoded.LogConfig.LogRotateConfig.MaxFileSizeMB ∧
          1 ≤ decoded.LogConfig.LogRotateConfig.FileCount) →
        ∃ e, IsValidLogRotateConfig decoded.LogConfig.LogRotateConfig = some e ∧
          (ParseConfigFile NewMountConfig ReadFile Decode ToUpper fileName).err =
            some ⟨"error parsing config file: " ++ e.msg⟩) := by
  rw [ParseConfigFile_good_severity NewMountConfig ReadFile Decode ToUpper fileName buf decoded
    hname hread hdec hsev]
  constructor
  · rw [← IsValidLogRotateConfig_eq_none]
    cases IsValidLogRotateConfig decoded.LogConfig.LogRotateConfig <;> simp
  · intro h
    rw [← IsValidLogRotateConfig_eq_none] at h
    cases hrot : IsValidLogRotateConfig decoded.LogConfig.LogRotateConfig with
    | none => exact absurd hrot h
    | some e => exact ⟨e, rfl, rfl⟩

/-- C24 at `config.yaml`, decoded as severity `Warning`, 0 MB and 10 files. -/
theorem ParseConfigFile_log_rotate_witness :
    ∃ e, IsValidLogRotateConfig ⟨0, 10⟩ = some e ∧
      (ParseConfigFile Demo.NewMountConfig Demo.ReadFile Demo.DecodeNoSize Demo.ToUpper
        "config.yaml").err = some ⟨"error parsing config file: " ++ e.msg⟩ :=
  (ParseConfigFile_log_rotate Demo.NewMountConfig Demo.ReadFile Demo.DecodeNoSize Demo.ToUpper
    "config.yaml" [1, 2, 3] ⟨⟨"Warning", ⟨0, 10⟩⟩, ()⟩ (by decide) rfl rfl (by decide)).2
    (by decide)

/-- C25. With the empty file name `ParseConfigFile` returns what
`NewMountConfig()` returns, as it is, with a nil error, and makes no call: it
reads no file, decodes nothing and runs neither validation. -/
theorem ParseConfigFile_empty_name {ρ : Type} (NewMountConfig : MountConfig ρ)
    (ReadFile : String → Except GoError Bytes)
    (Decode : Bytes → MountConfig ρ → MountConfig ρ × Option GoError)
    (ToUpper : String → String) :
    ParseConfigFile NewMountConfig ReadFile Decode ToUpper "" = ⟨NewMountConfig, none, []⟩ ∧
      (ParseConfigFile NewMountConfig ReadFile Decode ToUpper "").mountConfig = NewMountConfig ∧
      (ParseConfigFile NewMountConfig ReadFile Decode ToUpper "").err = none ∧
      (ParseConfigFile NewMountConfig ReadFile Decode ToUpper "").calls = [] :=
  ⟨rfl, rfl, rfl, rfl⟩

end config
